import Mathlib

/-!
# cri-tools: log record parser, container creation, UUID generator, exec

A shallow embedding of `pkg/validate/container.go`, `pkg/framework/util.go` and
`cmd/crictl/exec.go`.

Conventions of the embedding.

* A Go `string` / `[]byte` is a list of Unicode code points (`Str`); the text is taken to be
  valid UTF-8, so that a byte-level test against an ASCII byte is a test on a code point.
* `framework.ExpectNoError(err, ...)` with a non-nil `err` hands the failure to Ginkgo's
  `Fail`, which panics and unwinds the running function; so does a Go run-time panic
  (index out of range, nil dereference).  Both are an `Except.error` carrying a `Failure`.
* `By`, `Logf` only write to the test log and are left out.
* Library code outside the repository (`time.Parse`, `json.Unmarshal`, `bufio.Scanner`,
  `uuid.NewUUID`, the CRI services) is a parameter of the embedded function.
-/

namespace CriTools

/-! ## Strings -/

/-- Go string: a sequence of code points. -/
abbrev Str := List Char

/-- Go `unicode.IsSpace`: the Latin-1 spaces and the code points with the White_Space
property. -/
def isSpace (c : Char) : Bool :=
  let n := c.toNat
  n == 0x09 || n == 0x0A || n == 0x0B || n == 0x0C || n == 0x0D || n == 0x20 ||
  n == 0x85 || n == 0xA0 || n == 0x1680 || (0x2000 ≤ n && n ≤ 0x200A) ||
  n == 0x2028 || n == 0x2029 || n == 0x202F || n == 0x205F || n == 0x3000

/-- Scanner of `strings.Fields`: `cur` is the (reversed) field being read. -/
def fieldsFrom : Str → Str → List Str
  | [], cur => if cur.isEmpty then [] else [cur.reverse]
  | c :: cs, cur =>
    if isSpace c then
      (if cur.isEmpty then fieldsFrom cs [] else cur.reverse :: fieldsFrom cs [])
    else fieldsFrom cs (c :: cur)

/-- Go `strings.Fields`: the maximal runs of non-space code points, in order. -/
def Fields (s : Str) : List Str := fieldsFrom s []

/-- Go `strings.Join`. -/
def Join : List Str → Str → Str
  | [], _ => []
  | [a], _ => a
  | a :: b :: rest, sep => a ++ sep ++ Join (b :: rest) sep

/-- Go `strings.HasPrefix`. -/
def HasPrefix : Str → Str → Bool
  | _, [] => true
  | [], _ :: _ => false
  | c :: cs, p :: ps => c == p && HasPrefix cs ps

/-- Go `strings.Contains`. -/
def Contains : Str → Str → Bool
  | s, sub => HasPrefix s sub ||
    match s with
    | [] => false
    | _ :: cs => Contains cs sub

/-! ## Failures -/

/-- How a test helper stops without returning. -/
inductive Failure where
  /-- `framework.ExpectNoError` saw a non-nil error; the text is its `explain` format. -/
  | expectNoError (explain : String)
  /-- Go run-time panic: index or slice bound out of range. -/
  | indexOutOfRange
  /-- Go run-time panic: nil pointer dereference. -/
  | nilDereference
  deriving DecidableEq, Repr

/-! ## Log records (`pkg/validate/container.go`) -/

/-- Stream tag `stdoutType`. -/
def stdoutType : Str := "stdout".toList

/-- Stream tag `stderrType`. -/
def stderrType : Str := "stderr".toList

/-- The internal log type `logMessage`; `streamType` is a named `string` type. -/
structure logMessage (Time : Type) where
  timestamp : Time
  stream : Str
  log : Str
  deriving DecidableEq, Repr, Inhabited

/-- The fields of docker's `jsonlog.JSONLog` that the parser reads. -/
structure JSONLog (Time : Type) where
  Log : Str
  Stream : Str
  Created : Time
  deriving DecidableEq, Repr

/-- The library functions the parser calls: `time.Parse(time.RFC3339Nano, ·)` and
`json.Unmarshal(·, &l)` on a zero `jsonlog.JSONLog`; `none` stands for a non-nil error. -/
structure Lib (Time : Type) where
  timeParse : Str → Option Time
  jsonUnmarshal : Str → Option (JSONLog Time)

/-- The function `parseDockerJSONLog`: decodes the line and overwrites the three fields. -/
def parseDockerJSONLog {Time : Type} (lib : Lib Time) (log : Str) (msg : logMessage Time) :
    Except Failure (logMessage Time) :=
  match lib.jsonUnmarshal log with
  | none => .error (.expectNoError "failed with %v to unmarshal log %q")
  | some l => .ok { msg with timestamp := l.Created, stream := l.Stream, log := l.Log }

/-- The function `parseCRILog`: `strings.Fields(log)[0]` is evaluated before `time.Parse`,
then `[1]` and `[2:]`. -/
def parseCRILog {Time : Type} (lib : Lib Time) (log : Str) (msg : logMessage Time) :
    Except Failure (logMessage Time) :=
  match (Fields log)[0]? with
  | none => .error .indexOutOfRange
  | some first =>
    match lib.timeParse first with
    | none => .error (.expectNoError "failed to parse timeStamp: %v")
    | some timeStamp =>
      match (Fields log)[1]? with
      | none => .error .indexOutOfRange
      | some stream =>
        if 2 ≤ (Fields log).length then
          .ok { msg with timestamp := timeStamp, stream := stream,
                         log := Join ((Fields log).drop 2) " ".toList ++ "\n".toList }
        else .error .indexOutOfRange

/-- What `parseLogLine` gets from the file system: whether `os.Open` failed, the lines
`scanner.Scan()`/`scanner.Text()` deliver, and whether `scanner.Err()` is non-nil after the
loop. -/
structure LogFile where
  openErr : Bool
  lines : List Str
  scanErr : Bool

/-- The format test and the parser call in the loop body of `parseLogLine`; `msg` is the
variable `msg` as the previous iterations left it. -/
def scanBody {Time : Type} (lib : Lib Time) (line : Str) (msg : logMessage Time) :
    Except Failure (logMessage Time) :=
  if HasPrefix line ['{'] then parseDockerJSONLog lib line msg
  else parseCRILog lib line msg

/-- The `for scanner.Scan()` loop of `parseLogLine`; `msg` is the one variable all
iterations write to, `msgLog` the slice appended to. -/
def scanLoop {Time : Type} (lib : Lib Time) :
    List Str → logMessage Time → List (logMessage Time) → Except Failure (List (logMessage Time))
  | [], _, msgLog => .ok msgLog
  | line :: rest, msg, msgLog =>
    match scanBody lib line msg with
    | .error e => .error e
    | .ok msg' => scanLoop lib rest msg' (msgLog ++ [msg'])

/-- The function `parseLogLine`. -/
def parseLogLine {Time : Type} [Inhabited Time] (lib : Lib Time) (f : LogFile) :
    Except Failure (List (logMessage Time)) :=
  if f.openErr then .error (.expectNoError "failed to open log file: %v")
  else
    match scanLoop lib f.lines ⟨default, [], []⟩ [] with
    | .error e => .error e
    | .ok msgLog =>
      if f.scanErr then .error (.expectNoError "failed to read log by row: %v")
      else .ok msgLog

/-- One line parsed on its own: the loop body run on a fresh zero-valued `logMessage`. -/
def parseLine {Time : Type} [Inhabited Time] (lib : Lib Time) (line : Str) :
    Except Failure (logMessage Time) :=
  scanBody lib line ⟨default, [], []⟩

/-! ## A reference instance of the library

The theorems below hold for every `Lib`.  To run the embedding on concrete log lines we
also give one instance: a strict reader of RFC 3339 timestamps and a reader of flat JSON
objects whose values are strings. -/

/-- A broken-down timestamp; `offset` is in minutes east of UTC. -/
structure Instant where
  year : Nat
  month : Nat
  day : Nat
  hour : Nat
  minute : Nat
  second : Nat
  nano : Nat
  offset : Int
  deriving DecidableEq, Repr, Inhabited

/-- Value of a decimal digit. -/
def digitVal (c : Char) : Option Nat :=
  if '0'.toNat ≤ c.toNat ∧ c.toNat ≤ '9'.toNat then some (c.toNat - '0'.toNat) else none

/-- Value of a string of decimal digits, most significant first, continuing from `acc`. -/
def decimalFrom : Str → Nat → Option Nat
  | [], acc => some acc
  | c :: cs, acc =>
    match digitVal c with
    | none => none
    | some d => decimalFrom cs (10 * acc + d)

/-- Value of a non-empty string of decimal digits. -/
def decimal (s : Str) : Option Nat :=
  if s.isEmpty then none else decimalFrom s 0

/-- Splits off the leading decimal digits. -/
def spanDigits : Str → Str × Str
  | [] => ([], [])
  | c :: cs =>
    if (digitVal c).isSome then ((c :: (spanDigits cs).1), (spanDigits cs).2) else ([], c :: cs)

/-- Zone designator: `Z` or `±hh:mm`. -/
def zoneOffset : Str → Option Int
  | ['Z'] => some 0
  | [sign, h1, h2, ':', m1, m2] =>
    match decimal [h1, h2], decimal [m1, m2] with
    | some h, some m =>
      if sign = '+' then some (Int.ofNat (60 * h + m))
      else if sign = '-' then some (- Int.ofNat (60 * h + m))
      else none
    | _, _ => none
  | _ => none

/-- Fraction of a second (at most nine digits) followed by the zone. -/
def fractionAndZone (second : Nat → Int → Instant) : Str → Option Instant
  | '.' :: rest =>
    let frac := (spanDigits rest).1
    if frac.isEmpty ∨ 9 < frac.length then none
    else
      match decimal (frac ++ List.replicate (9 - frac.length) '0'), zoneOffset (spanDigits rest).2 with
      | some n, some z => some (second n z)
      | _, _ => none
  | rest =>
    match zoneOffset rest with
    | some z => some (second 0 z)
    | none => none

/-- Reads `yyyy-mm-ddThh:mm:ss[.fraction](Z|±hh:mm)`. -/
def rfc3339 : Str → Option Instant
  | y1 :: y2 :: y3 :: y4 :: '-' :: o1 :: o2 :: '-' :: d1 :: d2 :: 'T' ::
      h1 :: h2 :: ':' :: m1 :: m2 :: ':' :: s1 :: s2 :: rest =>
    match decimal [y1, y2, y3, y4], decimal [o1, o2], decimal [d1, d2],
          decimal [h1, h2], decimal [m1, m2], decimal [s1, s2] with
    | some y, some o, some d, some h, some m, some s =>
      fractionAndZone (fun n z => ⟨y, o, d, h, m, s, n, z⟩) rest
    | _, _, _, _, _, _ => none
  | _ => none

/-- Body of a JSON string after the opening quote: the decoded text and what follows the
closing quote. -/
def jsonStringBody : Str → Option (Str × Str)
  | [] => none
  | '"' :: rest => some ([], rest)
  | '\\' :: e :: rest =>
    let decoded : Option Char :=
      if e = 'n' then some '\n' else if e = 't' then some '\t' else if e = 'r' then some '\r'
      else if e = '"' then some '"' else if e = '\\' then some '\\' else if e = '/' then some '/'
      else none
    match decoded, jsonStringBody rest with
    | some c, some (body, tail) => some (c :: body, tail)
    | _, _ => none
  | c :: rest =>
    match jsonStringBody rest with
    | some (body, tail) => some (c :: body, tail)
    | none => none

/-- Members `"key":"value"` of a flat JSON object, up to the closing brace. -/
def jsonMembers : Nat → Str → Option (List (Str × Str))
  | 0, _ => none
  | fuel + 1, '"' :: rest =>
    match jsonStringBody rest with
    | some (key, ':' :: '"' :: afterColon) =>
      match jsonStringBody afterColon with
      | some (value, ['}']) => some [(key, value)]
      | some (value, ',' :: more) =>
        match jsonMembers fuel more with
        | some members => some ((key, value) :: members)
        | none => none
      | _ => none
    | _ => none
  | _ + 1, _ => none

/-- Value of the last member named `key`, if any. -/
def jsonField (members : List (Str × Str)) (key : Str) : Option Str :=
  (members.reverse.find? (fun kv => kv.1 == key)).map (fun kv => kv.2)

/-- Decodes a flat JSON object into a `JSONLog`; a field that is absent keeps its zero
value. -/
def unmarshalJSONLog : Str → Option (JSONLog Instant)
  | '{' :: rest =>
    match (if rest = ['}'] then some [] else jsonMembers rest.length rest) with
    | none => none
    | some members =>
      match jsonField members "time".toList with
      | none => some ⟨(jsonField members "log".toList).getD [],
                      (jsonField members "stream".toList).getD [], default⟩
      | some t =>
        match rfc3339 t with
        | none => none
        | some created => some ⟨(jsonField members "log".toList).getD [],
                                (jsonField members "stream".toList).getD [], created⟩
  | _ => none

/-- The reference instance. -/
def refLib : Lib Instant := ⟨rfc3339, unmarshalJSONLog⟩

/-! ## Sample inputs -/

/-- The plaintext line of the specification. -/
def sampleCRILine : Str :=
  "2016-10-06T00:17:09.669794202Z stdout The content of the log entry 1".toList

/-- The structured line of the specification. -/
def sampleJSONLine : Str :=
  "\x7b\"log\":\"hi\\n\",\"stream\":\"stdout\",\"time\":\"2020-01-01T00:00:00Z\"\x7d".toList

/-- A plaintext line with a timestamp, a stream tag and no message. -/
def emptyMessageLine : Str := "2016-10-06T00:17:09.669794202Z stdout".toList

/-- A plaintext line whose second token is not a stream name. -/
def oddStreamLine : Str := "2016-10-06T00:17:09.669794202Z foo bar".toList

/-- A line that is neither a timestamped plaintext line nor a JSON object. -/
def brokenLine : Str := "not-a-timestamp stdout lost".toList

/-! ## Container creation (`pkg/framework/util.go`) -/

/-- CRI `ImageSpec`. -/
structure ImageSpec where
  Image : Str
  deriving DecidableEq, Repr

/-- CRI `Image`, as returned by the image service for an image that is present. -/
structure Image where
  Id : Str
  deriving DecidableEq, Repr

/-- CRI `ContainerConfig`; `Image` is a pointer and may be nil. -/
structure ContainerConfig where
  Name : Str
  Attempt : Nat
  Image : Option ImageSpec
  Command : List Str
  LogPath : Str
  deriving DecidableEq, Repr

/-- CRI `PodSandboxConfig`. -/
structure PodSandboxConfig where
  Name : Str
  Uid : Str
  Namespace : Str
  Attempt : Nat
  LogDirectory : Str
  deriving DecidableEq, Repr

/-- The image service as `CreateContainer` sees it.  Each method is called at most once in
a run of `CreateContainer`, so its answer is a function of the request.  `ImageStatus`
answers `.ok none` for an absent image (a nil `*Image` and a nil error). -/
structure ImageManagerService where
  ImageStatus : ImageSpec → Except String (Option Image)
  PullImage : ImageSpec → Except String Str

/-- The runtime service as `CreateContainer` sees it. -/
structure RuntimeService where
  CreateContainer : Str → ContainerConfig → PodSandboxConfig → Except String Str

/-- A request sent to one of the two services. -/
inductive Call where
  | imageStatus (image : ImageSpec)
  | pullImage (image : ImageSpec)
  | createContainer (podID : Str) (config : ContainerConfig) (podConfig : PodSandboxConfig)
  deriving DecidableEq, Repr

/-- The function `ImageStatus`: the requests sent, and the status or the failure. -/
def ImageStatus (c : ImageManagerService) (imageName : Str) :
    List Call × Except Failure (Option Image) :=
  let imageSpec : ImageSpec := ⟨imageName⟩
  match c.ImageStatus imageSpec with
  | .error _ => ([.imageStatus imageSpec], .error (.expectNoError "failed to get image status: %v"))
  | .ok status => ([.imageStatus imageSpec], .ok status)

/-- The function `PullPublicImage`. -/
def PullPublicImage (c : ImageManagerService) (imageName : Str) :
    List Call × Except Failure Unit :=
  let imageName := if !Contains imageName ":".toList then imageName ++ ":latest".toList
                   else imageName
  let imageSpec : ImageSpec := ⟨imageName⟩
  match c.PullImage imageSpec with
  | .error _ => ([.pullImage imageSpec], .error (.expectNoError "failed to pull image: %v"))
  | .ok _ => ([.pullImage imageSpec], .ok ())

/-- The function `CreateContainer`: the requests sent to the services, in order, and the
container id or the failure. -/
def CreateContainer (rc : RuntimeService) (ic : ImageManagerService) (config : ContainerConfig)
    (podID : Str) (podConfig : PodSandboxConfig) : List Call × Except Failure Str :=
  match config.Image with
  | none => ([], .error .nilDereference)
  | some image =>
    let imageName := if !Contains image.Image ":".toList then image.Image ++ ":latest".toList
                     else image.Image
    match ImageStatus ic imageName with
    | (sent, .error e) => (sent, .error e)
    | (sent, .ok status) =>
      match (if status.isNone then PullPublicImage ic imageName else ([], .ok ())) with
      | (sent', .error e) => (sent ++ sent', .error e)
      | (sent', .ok _) =>
        match rc.CreateContainer podID config podConfig with
        | .error _ => (sent ++ sent' ++ [.createContainer podID config podConfig],
            .error (.expectNoError "failed to create container: %v"))
        | .ok containerID => (sent ++ sent' ++ [.createContainer podID config podConfig],
            .ok containerID)

/-- The image name `CreateContainer` computes before it talks to the image service. -/
def lookupName (ref : Str) : Str :=
  if !Contains ref ":".toList then ref ++ ":latest".toList else ref

/-- The part of an image reference after its last slash. -/
def lastSegmentFrom : Str → Str → Str
  | [], cur => cur.reverse
  | c :: cs, cur => if c = '/' then lastSegmentFrom cs [] else lastSegmentFrom cs (c :: cur)

/-- An image reference lacks a tag when no colon follows its last slash (the reading of the
specification: a registry port is not a tag). -/
def lacksTag (ref : Str) : Bool := !(lastSegmentFrom ref []).contains ':'

/-- A container config that differs from the default one only in its image reference. -/
def configWithImage (ref : Str) : ContainerConfig :=
  ⟨"container".toList, 2, some ⟨ref⟩, ["top".toList], []⟩

/-- A pod sandbox config. -/
def samplePodConfig : PodSandboxConfig :=
  ⟨"pod".toList, "uid".toList, "namespace".toList, 2, []⟩

/-- An image service that has no image and pulls successfully. -/
def emptyImageService : ImageManagerService :=
  ⟨fun _ => .ok none, fun image => .ok image.Image⟩

/-- An image service that has no image and cannot pull. -/
def offlineImageService : ImageManagerService :=
  ⟨fun _ => .ok none, fun _ => .error "pull failed"⟩

/-- An image service that has every image. -/
def fullImageService : ImageManagerService :=
  ⟨fun image => .ok (some ⟨image.Image⟩), fun image => .ok image.Image⟩

/-- A runtime service that accepts every container. -/
def sampleRuntimeService : RuntimeService :=
  ⟨fun _ config _ => .ok config.Name⟩

/-! ## Unique identifiers (`pkg/framework/util.go`) -/

/-- Go `uuid.UUID`: a byte slice; the nil slice and the empty slice are both `[]`. -/
abbrev UUID := List (Fin 256)

/-- Go `uuid.Equal`, that is `bytes.Equal`. -/
def uuidEqual (a b : UUID) : Bool := a == b

/-- Lower-case hexadecimal digit. -/
def hexDigit (n : Nat) : Char := "0123456789abcdef".toList.getD n '0'

/-- The two hexadecimal digits of a byte. -/
def hexByte (b : Fin 256) : Str := [hexDigit (b.val / 16), hexDigit (b.val % 16)]

/-- Hexadecimal encoding of a byte slice. -/
def hex : List (Fin 256) → Str
  | [] => []
  | b :: bs => hexByte b ++ hex bs

/-- Go `UUID.String`: the form `xxxxxxxx-xxxx-xxxx-xxxx-xxxxxxxxxxxx`, or the empty string
when the slice does not hold 16 bytes. -/
def uuidString (u : UUID) : Str :=
  if u.length ≠ 16 then []
  else hex (u.take 4) ++ ('-' :: (hex ((u.drop 4).take 2) ++ ('-' :: (hex ((u.drop 6).take 2) ++
    ('-' :: (hex ((u.drop 8).take 2) ++ ('-' :: hex (u.drop 10))))))))

/-- The package state of the generator: the variable `lastUUID`, and how many values the
library function `uuid.NewUUID` has handed out so far. -/
structure Generator where
  lastUUID : UUID
  drawn : Nat
  deriving DecidableEq, Repr

/-- The state at program start: `lastUUID` is nil, no candidate has been drawn. -/
def Generator.initial : Generator := ⟨[], 0⟩

/-- The loop `for uuid.Equal(lastUUID, result) == true` of `NewUUID`; `src i` is the value of
the `i`-th call of `uuid.NewUUID` in the process, `fuel` bounds the number of tests of the
loop condition.  Returns the accepted candidate and the number of candidates drawn. -/
def waitLoop (src : Nat → UUID) (lastUUID : UUID) : Nat → Nat → UUID → Option (UUID × Nat)
  | 0, _, _ => none
  | fuel + 1, drawn, result =>
    if uuidEqual lastUUID result then waitLoop src lastUUID fuel (drawn + 1) (src drawn)
    else some (result, drawn)

/-- The function `NewUUID` (run under `uuidLock`, so calls do not overlap): the token and
the new state, or `none` when the loop has not ended within `fuel` tests. -/
def NewUUID (src : Nat → UUID) (fuel : Nat) (g : Generator) : Option (Str × Generator) :=
  match waitLoop src g.lastUUID fuel (g.drawn + 1) (src g.drawn) with
  | none => none
  | some (result, drawn) => some (uuidString result, ⟨result, drawn⟩)

/-- A sequence of `n` calls of `NewUUID`, one after the other in the order in which they
take the lock: the tokens in order of issue, and the final state. -/
def issue (src : Nat → UUID) (fuel : Nat) : Nat → Generator → Option (List Str × Generator)
  | 0, g => some ([], g)
  | n + 1, g =>
    match NewUUID src fuel g with
    | none => none
    | some (token, g') =>
      match issue src fuel n g' with
      | none => none
      | some (tokens, g'') => some (token :: tokens, g'')

/-- A 16-byte value whose bytes all equal `b`. -/
def constUUID (b : Fin 256) : UUID := List.replicate 16 b

/-- A candidate source whose clock steps back: it alternates between two values. -/
def alternatingSource (n : Nat) : UUID := if n % 2 = 0 then constUUID 1 else constUUID 2

/-- A candidate source whose clock is coarse but never steps back: every value comes twice,
until the last value is reached. -/
def slowSource (n : Nat) : UUID := constUUID ⟨min (n / 2) 255, by omega⟩

/-! ## Exec and ExecSync (`cmd/crictl/exec.go`) -/

/-- A Go `error` value that is not nil. -/
abbrev GoError := String

/-- The constant `kubeletURLPrefix`. -/
def kubeletURLPrefix : Str := "http://127.0.0.1:10250".toList

/-- The struct `execOptions`. -/
structure execOptions where
  id : Str
  timeout : Int
  tty : Bool
  stdin : Bool
  cmd : List Str
  deriving DecidableEq, Repr

/-- CRI `ExecRequest`. -/
structure ExecRequest where
  ContainerId : Str
  Cmd : List Str
  Tty : Bool
  Stdin : Bool
  deriving DecidableEq, Repr

/-- CRI `ExecResponse`. -/
structure ExecResponse where
  Url : Str
  deriving DecidableEq, Repr

/-- CRI `ExecSyncRequest`. -/
structure ExecSyncRequest where
  ContainerId : Str
  Cmd : List Str
  Timeout : Int
  deriving DecidableEq, Repr

/-- CRI `ExecSyncResponse`. -/
structure ExecSyncResponse where
  Stdout : Str
  Stderr : Str
  ExitCode : Int
  deriving DecidableEq, Repr

/-- The standard files of the process: `os.Stdin`, `os.Stdout`, `os.Stderr`. -/
inductive StdFile where
  | stdin
  | stdout
  | stderr
  deriving DecidableEq, Repr

/-- The fields of `remoteclient.StreamOptions`; a field left unset is `none`. -/
structure StreamOptions where
  SupportedProtocols : List Str
  Stdin : Option StdFile
  Stdout : Option StdFile
  Stderr : Option StdFile
  Tty : Bool
  deriving DecidableEq, Repr

/-- What `Exec` and `ExecSync` call: the runtime client, `url.Parse`,
`remoteclient.NewExecutor` (with the empty `restclient.Config`) and the `Stream` method of
the executor it returns, and the constant `SupportedStreamingProtocols`.  `U` is the type
of a parsed URL, `X` the type of an executor.  Each is called at most once in a run. -/
structure ExecEnv (U X : Type) where
  Exec : ExecRequest → Except GoError ExecResponse
  ExecSync : ExecSyncRequest → Except GoError ExecSyncResponse
  urlParse : Str → Except GoError U
  NewExecutor : Str → U → Except GoError X
  Stream : X → StreamOptions → Option GoError
  SupportedStreamingProtocols : List Str

/-- What a run of `Exec` or `ExecSync` does to the outside, in order. -/
inductive ExecEvent (U X : Type) where
  | execRPC (request : ExecRequest)
  | execSyncRPC (request : ExecSyncRequest)
  | newExecutor (method : Str) (url : U)
  | stream (executor : X) (options : StreamOptions)
  | println (text : Str)
  | printExitCode (code : Int)
  deriving DecidableEq, Repr

/-- The function `ExecSync`: the events, and the returned error (`none` for nil). -/
def ExecSync {U X : Type} (client : ExecEnv U X) (opts : execOptions) :
    List (ExecEvent U X) × Option GoError :=
  let request : ExecSyncRequest := ⟨opts.id, opts.cmd, opts.timeout⟩
  match client.ExecSync request with
  | .error err => ([.execSyncRPC request], some err)
  | .ok r =>
    ([.execSyncRPC request, .println r.Stdout, .println r.Stderr] ++
      (if r.ExitCode ≠ 0 then [.printExitCode r.ExitCode] else []), none)

/-- The function `Exec`: the events, and the returned error (`none` for nil). -/
def Exec {U X : Type} (client : ExecEnv U X) (opts : execOptions) :
    List (ExecEvent U X) × Option GoError :=
  let request : ExecRequest := ⟨opts.id, opts.cmd, opts.tty, opts.stdin⟩
  match client.Exec request with
  | .error err => ([.execRPC request], some err)
  | .ok r =>
    let execURL := if !HasPrefix r.Url "http".toList then kubeletURLPrefix ++ r.Url else r.Url
    match client.urlParse execURL with
    | .error err => ([.execRPC request], some err)
    | .ok URL =>
      match client.NewExecutor "POST".toList URL with
      | .error err => ([.execRPC request, .newExecutor "POST".toList URL], some err)
      | .ok exec =>
        let streamOptions : StreamOptions :=
          { SupportedProtocols := client.SupportedStreamingProtocols,
            Stdin := none, Stdout := some .stdout, Stderr := some .stderr, Tty := opts.tty }
        let streamOptions :=
          if opts.stdin then { streamOptions with Stdin := some .stdin } else streamOptions
        ([.execRPC request, .newExecutor "POST".toList URL, .stream exec streamOptions],
          client.Stream exec streamOptions)

/-- The scheme of a URL, if it has one: a letter, then letters, digits, `+`, `-`, `.`, up
to a colon (RFC 3986, and `getScheme` of Go's `net/url`).  A URL without a scheme is
relative. -/
def schemeFrom : Str → Str → Option Str
  | [], _ => none
  | c :: cs, seen =>
    if c.isAlpha then schemeFrom cs (c :: seen)
    else if c.isDigit ∨ c = '+' ∨ c = '-' ∨ c = '.' then
      (if seen.isEmpty then none else schemeFrom cs (c :: seen))
    else if c = ':' then (if seen.isEmpty then none else some seen.reverse)
    else none

/-- Whether the URL is relative, that is, has no scheme. -/
def isRelativeURL (u : Str) : Bool := (schemeFrom u []).isNone

/-- Whether every `%` in the text is followed by two hexadecimal digits. -/
def escapesValid : Str → Bool
  | [] => true
  | '%' :: a :: b :: rest =>
    (a.isDigit || ('a' ≤ a && a ≤ 'f') || ('A' ≤ a && a ≤ 'F')) &&
    (b.isDigit || ('a' ≤ b && b ≤ 'f') || ('A' ≤ b && b ≤ 'F')) && escapesValid (b :: rest)
  | '%' :: _ => false
  | _ :: rest => escapesValid rest

/-- A runtime client and streaming library for running `Exec` on concrete inputs: the
runtime answers `Exec` with the URL `url` (or fails with `rpcErr`), a URL is kept as its
text and rejected when an escape is invalid, the executor is the URL it was made for, and
streaming succeeds. -/
def sampleExecEnv (rpcErr : Option GoError) (url : Str) : ExecEnv Str Str where
  Exec := fun _ => match rpcErr with
    | some err => .error err
    | none => .ok ⟨url⟩
  ExecSync := fun request => match rpcErr with
    | some err => .error err
    | none => .ok ⟨"hello\n".toList, [], if request.Timeout < 0 then 1 else 0⟩
  urlParse := fun text => if escapesValid text then .ok text else .error "invalid URL escape"
  NewExecutor := fun _ u => .ok u
  Stream := fun _ _ => none
  SupportedStreamingProtocols :=
    ["v4.channel.k8s.io".toList, "v3.channel.k8s.io".toList, "v2.channel.k8s.io".toList,
     "channel.k8s.io".toList]

/-- Options of an interactive session. -/
def sampleExecOptions : execOptions :=
  ⟨"c1".toList, 0, true, true, ["sh".toList]⟩

/-- Options of a non-interactive command. -/
def plainExecOptions : execOptions :=
  ⟨"c1".toList, 5, false, false, ["echo".toList, "hello".toList]⟩

/-! ## Test teardown and container lookup (`pkg/validate/container.go`) -/

/-- The runtime service as the `AfterEach` blocks see it; `none` is a nil error. -/
structure SandboxService where
  StopPodSandbox : Str → Option GoError
  RemovePodSandbox : Str → Option GoError

/-- A step of a teardown. -/
inductive TeardownCall where
  | stopPodSandbox (podID : Str)
  | removePodSandbox (podID : Str)
  | removeAll (path : Str)
  deriving DecidableEq, Repr

/-- The `AfterEach` block of the contexts "basic operations on container" and "adding
volume and device": both calls are statements whose returned error is dropped. -/
def afterEachContainer (rc : SandboxService) (podID : Str) : List TeardownCall :=
  match rc.StopPodSandbox podID with
  | _ =>
    match rc.RemovePodSandbox podID with
    | _ => [.stopPodSandbox podID, .removePodSandbox podID]

/-- The `AfterEach` block of the context "runtime should support log". -/
def afterEachLog (rc : SandboxService) (podID hostPath : Str) : List TeardownCall :=
  match rc.StopPodSandbox podID with
  | _ =>
    match rc.RemovePodSandbox podID with
    | _ => [.stopPodSandbox podID, .removePodSandbox podID, .removeAll hostPath]

/-- A runtime service whose `StopPodSandbox` always fails. -/
def stuckSandboxService : SandboxService :=
  ⟨fun _ => some "stop failed", fun _ => none⟩

/-- CRI `Container`, as listed by the runtime. -/
structure Container where
  Id : Str
  PodSandboxId : Str
  deriving DecidableEq, Repr

/-- The function `containerFound`; the elements of the slice are non-nil pointers. -/
def containerFound : List Container → Str → Bool
  | [], _ => false
  | container :: rest, containerID =>
    if container.Id = containerID then true else containerFound rest containerID

/-- Whether the text has two spaces in a row. -/
def hasDoubleSpace : Str → Bool
  | [] => false
  | c :: rest => (c == ' ' && rest.head? == some ' ') || hasDoubleSpace rest

/-- A plaintext line whose message is written with two spaces. -/
def wideLine : Str := "2016-10-06T00:17:09.669794202Z stdout a  b".toList

/-- The same tokens as `wideLine`, with other white space between and around them. -/
def tabbedLine : Str := " 2016-10-06T00:17:09.669794202Z\tstdout   a\tb  ".toList

/-- A candidate source that hands out nil first and then a new value at every call. -/
def lateSource (n : Nat) : UUID :=
  if n < 2 then [] else constUUID ⟨min n 255, by omega⟩

/-! ## Verification of log contents (`pkg/validate/container.go`) -/

/-- The constant `defaultLog`. -/
def defaultLog : Str := "hello World".toList

/-- How `verifyLogContents` stops without returning: `parseLogLine` did not return, or one
of the two `Expect(...).To(Equal(...))` assertions in the loop did not hold (Gomega hands
the failure to Ginkgo's `Fail`, which unwinds the function). -/
inductive VerifyFailure where
  /-- `parseLogLine` failed. -/
  | parse (failure : Failure)
  /-- "Log should be %s": the payload of a record differs from the expected one. -/
  | logDiffers
  /-- "Stream should be %s": the stream of a record differs from the expected one. -/
  | streamDiffers
  deriving DecidableEq, Repr

/-- The loop `for _, msg := range log` of `verifyLogContents`: for each record, first the
payloads are compared as strings, then the streams. -/
def verifyLoop {Time : Type} (expectedLogMessage : logMessage Time) :
    List (logMessage Time) → Except VerifyFailure Unit
  | [] => .ok ()
  | msg :: rest =>
    if msg.log = expectedLogMessage.log then
      (if msg.stream = expectedLogMessage.stream then verifyLoop expectedLogMessage rest
       else .error .streamDiffers)
    else .error .logDiffers

/-- The function `verifyLogContents`; `expectedLogMessage` is a non-nil pointer. -/
def verifyLogContents {Time : Type} [Inhabited Time] (lib : Lib Time) (f : LogFile)
    (expectedLogMessage : logMessage Time) : Except VerifyFailure Unit :=
  match parseLogLine lib f with
  | .error e => .error (.parse e)
  | .ok log => verifyLoop expectedLogMessage log

/-- The line a container running `echo "hello World"` writes in the plaintext format. -/
def helloLine : Str := "2017-05-04T10:11:12.000000013Z stdout hello World".toList

/-- The same output in the JSON format. -/
def helloJSONLine : Str :=
  "\x7b\"log\":\"hello World\\n\",\"stream\":\"stdout\",\"time\":\"2017-05-04T10:11:12Z\"\x7d".toList

/-- The expected message of the test "runtime should support starting container with
log": the payload and the stream are set, the timestamp keeps its zero value. -/
def helloExpected : logMessage Instant :=
  ⟨default, stdoutType, defaultLog ++ "\n".toList⟩

/-! ## Lemmas on the parser -/

theorem hasPrefix_brace (line : Str) :
    HasPrefix line ['{'] = true ↔ line.head? = some '{' := by
  cases line with
  | nil => simp [HasPrefix]
  | cons c cs => simp [HasPrefix]

theorem parseDockerJSONLog_any_msg {Time : Type} (lib : Lib Time) (line : Str)
    (m m' : logMessage Time) :
    parseDockerJSONLog lib line m = parseDockerJSONLog lib line m' := by
  unfold parseDockerJSONLog
  cases lib.jsonUnmarshal line <;> rfl

theorem parseCRILog_any_msg {Time : Type} (lib : Lib Time) (line : Str)
    (m m' : logMessage Time) :
    parseCRILog lib line m = parseCRILog lib line m' := by
  unfold parseCRILog
  cases (Fields line)[0]? with
  | none => rfl
  | some first =>
    cases lib.timeParse first with
    | none => rfl
    | some t =>
      cases (Fields line)[1]? with
      | none => rfl
      | some stream => rfl

theorem scanBody_any_msg {Time : Type} (lib : Lib Time) (line : Str)
    (m m' : logMessage Time) : scanBody lib line m = scanBody lib line m' := by
  unfold scanBody
  rw [parseDockerJSONLog_any_msg lib line m m', parseCRILog_any_msg lib line m m']

theorem scanBody_eq_parseLine {Time : Type} [Inhabited Time] (lib : Lib Time) (line : Str)
    (m : logMessage Time) : scanBody lib line m = parseLine lib line :=
  scanBody_any_msg lib line m _

/-- The loop appends, line by line, the record of each line parsed on its own, and stops at
the first line that fails. -/
theorem scanLoop_eq_mapM {Time : Type} [Inhabited Time] (lib : Lib Time) :
    ∀ (lines : List Str) (m : logMessage Time) (acc : List (logMessage Time)),
      scanLoop lib lines m acc =
        match lines.mapM (parseLine lib) with
        | .ok rs => .ok (acc ++ rs)
        | .error e => .error e
  | [], m, acc => by
    rw [scanLoop, List.mapM_nil]
    simp [pure, Except.pure]
  | line :: rest, m, acc => by
    rw [scanLoop, scanBody_eq_parseLine, List.mapM_cons]
    cases hline : parseLine lib line with
    | error e => simp [bind, Except.bind]
    | ok r =>
      simp only [bind, Except.bind]
      rw [scanLoop_eq_mapM lib rest r (acc ++ [r])]
      cases hrest : rest.mapM (parseLine lib) with
      | error e => simp
      | ok rs => simp [pure, Except.pure]

theorem mapM_ok_of_forall {α β : Type} (f : α → Except Failure β) :
    ∀ (xs : List α), (∀ x ∈ xs, ∃ r, f x = .ok r) → ∃ out, xs.mapM f = .ok out
  | [], _ => ⟨[], by rw [List.mapM_nil]; rfl⟩
  | x :: xs, h => by
    obtain ⟨r, hr⟩ := h x (List.mem_cons_self x xs)
    obtain ⟨out, hout⟩ := mapM_ok_of_forall f xs (fun y hy => h y (List.mem_cons_of_mem x hy))
    exact ⟨r :: out, by rw [List.mapM_cons, hr, hout]; rfl⟩

theorem mapM_ok_index {α β : Type} (f : α → Except Failure β) :
    ∀ (xs : List α) (out : List β), xs.mapM f = .ok out →
      out.length = xs.length ∧
        ∀ (i : Nat) (x : α), xs[i]? = some x → ∃ r, out[i]? = some r ∧ f x = .ok r
  | [], out, h => by
    rw [List.mapM_nil] at h
    cases h
    simp
  | x :: xs, out, h => by
    rw [List.mapM_cons] at h
    cases hx : f x with
    | error e => rw [hx] at h; cases h
    | ok r =>
      cases hxs : xs.mapM f with
      | error e => rw [hx, hxs] at h; cases h
      | ok rs =>
        rw [hx, hxs] at h
        cases h
        obtain ⟨hlen, hidx⟩ := mapM_ok_index f xs rs hxs
        refine ⟨by simp [hlen], ?_⟩
        intro i y hy
        cases i with
        | zero =>
          simp at hy
          subst hy
          exact ⟨r, by simp, hx⟩
        | succ i =>
          simp at hy
          obtain ⟨r', hr', hf⟩ := hidx i y hy
          exact ⟨r', by simpa using hr', hf⟩

theorem mapM_error_at {α β : Type} (f : α → Except Failure β) (bad : α) (e : Failure)
    (hbad : f bad = .error e) (rest : List α) :
    ∀ (pre : List α), (∀ x ∈ pre, ∃ r, f x = .ok r) →
      (pre ++ bad :: rest).mapM f = .error e
  | [], _ => by
    rw [List.nil_append, List.mapM_cons, hbad]
    rfl
  | x :: pre, h => by
    obtain ⟨r, hr⟩ := h x (List.mem_cons_self x pre)
    rw [List.cons_append, List.mapM_cons, hr,
      mapM_error_at f bad e hbad rest pre (fun y hy => h y (List.mem_cons_of_mem x hy))]
    rfl

theorem mapM_error_of_mem {α β : Type} (f : α → Except Failure β) (bad : α) (e : Failure)
    (hbad : f bad = .error e) :
    ∀ (xs : List α), bad ∈ xs → ∃ e', xs.mapM f = .error e'
  | [], h => by cases h
  | x :: xs, h => by
    rw [List.mapM_cons]
    cases hx : f x with
    | error e' => exact ⟨e', rfl⟩
    | ok r =>
      have hmem : bad ∈ xs := by
        rcases List.mem_cons.mp h with h1 | h1
        · subst h1
          rw [hbad] at hx
          cases hx
        · exact h1
      obtain ⟨e', he'⟩ := mapM_error_of_mem f bad e hbad xs hmem
      exact ⟨e', by rw [he']; rfl⟩

theorem parseLogLine_eq_mapM {Time : Type} [Inhabited Time] (lib : Lib Time) (f : LogFile)
    (hopen : f.openErr = false) :
    parseLogLine lib f =
      match f.lines.mapM (parseLine lib) with
      | .ok rs => if f.scanErr then .error (.expectNoError "failed to read log by row: %v")
                  else .ok rs
      | .error e => .error e := by
  unfold parseLogLine
  rw [hopen, scanLoop_eq_mapM]
  cases f.lines.mapM (parseLine lib) <;> simp

theorem mapM_ok_mem {α β : Type} (f : α → Except Failure β) :
    ∀ (xs : List α) (out : List β), xs.mapM f = .ok out →
      ∀ r ∈ out, ∃ x ∈ xs, f x = .ok r
  | [], out, h => by
    rw [List.mapM_nil] at h
    cases h
    intro r hr
    cases hr
  | x :: xs, out, h => by
    rw [List.mapM_cons] at h
    cases hx : f x with
    | error e => rw [hx] at h; cases h
    | ok r0 =>
      cases hxs : xs.mapM f with
      | error e => rw [hx, hxs] at h; cases h
      | ok rs =>
        rw [hx, hxs] at h
        cases h
        intro r hr
        rcases List.mem_cons.mp hr with h1 | h1
        · exact ⟨x, List.mem_cons_self x xs, by rw [h1]; exact hx⟩
        · obtain ⟨y, hy, hfy⟩ := mapM_ok_mem f xs rs hxs r h1
          exact ⟨y, List.mem_cons_of_mem x hy, hfy⟩

theorem parseLogLine_ok_mapM {Time : Type} [Inhabited Time] (lib : Lib Time) (f : LogFile)
    (out : List (logMessage Time)) (h : parseLogLine lib f = .ok out) :
    f.lines.mapM (parseLine lib) = .ok out := by
  have hopen : f.openErr = false := by
    cases ho : f.openErr with
    | false => rfl
    | true => simp [parseLogLine, ho] at h
  rw [parseLogLine_eq_mapM lib f hopen] at h
  cases hm : f.lines.mapM (parseLine lib) with
  | error e => rw [hm] at h; cases h
  | ok rs =>
    rw [hm] at h
    cases hs : f.scanErr with
    | true => simp [hs] at h
    | false =>
      simp [hs] at h
      rw [h]

theorem parseCRILog_stream {Time : Type} (lib : Lib Time) (line : Str)
    (msg r : logMessage Time) (h : parseCRILog lib line msg = .ok r) :
    (Fields line)[1]? = some r.stream := by
  unfold parseCRILog at h
  cases h0 : (Fields line)[0]? with
  | none => simp [h0] at h
  | some first =>
    cases ht : lib.timeParse first with
    | none => simp [h0, ht] at h
    | some t =>
      cases h1 : (Fields line)[1]? with
      | none => simp [h0, ht, h1] at h
      | some stream =>
        simp only [h0, ht, h1] at h
        split at h
        · cases h
          rfl
        · cases h

theorem parseDockerJSONLog_stream {Time : Type} (lib : Lib Time) (line : Str)
    (msg r : logMessage Time) (h : parseDockerJSONLog lib line msg = .ok r) :
    ∃ l, lib.jsonUnmarshal line = some l ∧ r.stream = l.Stream := by
  unfold parseDockerJSONLog at h
  cases hj : lib.jsonUnmarshal line with
  | none => simp [hj] at h
  | some l =>
    simp only [hj] at h
    cases h
    exact ⟨l, rfl, rfl⟩

/-! ## The log record parser: claims -/

/-- C1: for a plaintext line (first character not an opening brace) with at least three
whitespace-delimited tokens whose first token `time.Parse` accepts, `parseCRILog` yields the
record with that parsed time, the second token as stream, and the third and later tokens
joined by single spaces followed by one newline as payload. -/
theorem parseCRILog_three_tokens {Time : Type} (lib : Lib Time) (line : Str)
    (msg : logMessage Time) (first stream third : Str) (more : List Str) (t : Time)
    (_hplain : line.head? ≠ some '{')
    (htok : Fields line = first :: stream :: third :: more)
    (htime : lib.timeParse first = some t) :
    parseCRILog lib line msg =
      .ok ⟨t, stream, Join (third :: more) " ".toList ++ "\n".toList⟩ := by
  unfold parseCRILog
  simp [htok, htime]

/-- The line of the specification yields stream `stdout` and the payload
`The content of the log entry 1` followed by a newline. -/
theorem parseCRILog_three_tokens_witness :
    sampleCRILine.head? ≠ some '{' ∧
    Fields sampleCRILine = "2016-10-06T00:17:09.669794202Z".toList :: "stdout".toList ::
      "The".toList :: ["content".toList, "of".toList, "the".toList, "log".toList,
        "entry".toList, "1".toList] ∧
    parseCRILog refLib sampleCRILine default =
      .ok ⟨⟨2016, 10, 6, 0, 17, 9, 669794202, 0⟩, "stdout".toList,
        "The content of the log entry 1\n".toList⟩ :=
  ⟨by decide, by decide,
    parseCRILog_three_tokens refLib sampleCRILine default
      "2016-10-06T00:17:09.669794202Z".toList "stdout".toList "The".toList
      ["content".toList, "of".toList, "the".toList, "log".toList, "entry".toList, "1".toList]
      ⟨2016, 10, 6, 0, 17, 9, 669794202, 0⟩ (by decide) (by decide) (by decide)⟩

/-- C2: when the line decodes as a JSON log object `l`, `parseDockerJSONLog` yields the
record whose stream is the `stream` field, whose timestamp is the `time` field and whose
payload is the `log` field unchanged: nothing is appended to it or removed from it. -/
theorem parseDockerJSONLog_fields {Time : Type} (lib : Lib Time) (line : Str)
    (msg : logMessage Time) (l : JSONLog Time) (hjson : lib.jsonUnmarshal line = some l) :
    parseDockerJSONLog lib line msg = .ok ⟨l.Created, l.Stream, l.Log⟩ := by
  unfold parseDockerJSONLog
  rw [hjson]

/-- The structured line of the specification yields stream `stdout` and payload `hi`
followed by a newline. -/
theorem parseDockerJSONLog_fields_witness :
    refLib.jsonUnmarshal sampleJSONLine =
      some ⟨"hi\n".toList, "stdout".toList, ⟨2020, 1, 1, 0, 0, 0, 0, 0⟩⟩ ∧
    parseDockerJSONLog refLib sampleJSONLine default =
      .ok ⟨⟨2020, 1, 1, 0, 0, 0, 0, 0⟩, "stdout".toList, "hi\n".toList⟩ :=
  ⟨by decide,
    parseDockerJSONLog_fields refLib sampleJSONLine default
      ⟨"hi\n".toList, "stdout".toList, ⟨2020, 1, 1, 0, 0, 0, 0, 0⟩⟩ (by decide)⟩

/-- C3: on a file that opens and is scanned without error, `parseLogLine` is the line-by-line
application of one function of the line alone: the JSON parser when the first character of
the line is an opening brace, the plaintext parser otherwise.  The state `m` the parser is
started on, which is what earlier lines leave behind, is arbitrary: it has no influence. -/
theorem parseLogLine_per_line_format {Time : Type} [Inhabited Time] (lib : Lib Time)
    (f : LogFile) (hopen : f.openErr = false) (hscan : f.scanErr = false)
    (m : logMessage Time) :
    parseLogLine lib f =
      f.lines.mapM (fun line =>
        if line.head? = some '{' then parseDockerJSONLog lib line m
        else parseCRILog lib line m) := by
  have hfun : parseLine lib = (fun line =>
      if line.head? = some '{' then parseDockerJSONLog lib line m
      else parseCRILog lib line m) := by
    funext line
    rw [← scanBody_eq_parseLine lib line m]
    unfold scanBody
    by_cases h : line.head? = some '{'
    · rw [if_pos h, if_pos ((hasPrefix_brace line).mpr h)]
    · rw [if_neg h, if_neg (fun hp => h ((hasPrefix_brace line).mp hp))]
  rw [parseLogLine_eq_mapM lib f hopen, hscan, hfun]
  cases f.lines.mapM (fun line =>
      if line.head? = some '{' then parseDockerJSONLog lib line m
      else parseCRILog lib line m) <;> simp

/-- A file that mixes both formats is parsed with each line in its own format. -/
theorem parseLogLine_per_line_format_witness :
    parseLogLine refLib ⟨false, [sampleJSONLine, sampleCRILine, sampleJSONLine], false⟩ =
      [sampleJSONLine, sampleCRILine, sampleJSONLine].mapM (fun line =>
        if line.head? = some '{' then parseDockerJSONLog refLib line default
        else parseCRILog refLib line default) :=
  parseLogLine_per_line_format refLib
    ⟨false, [sampleJSONLine, sampleCRILine, sampleJSONLine], false⟩ rfl rfl default

/-- C4, refuted as stated: both lines the scanner delivers parse, but the scanner ends with
an error (for instance on a later line that is longer than its buffer), and `parseLogLine`
returns no record list. -/
theorem scan_error_returns_no_records :
    (∀ line ∈ [sampleCRILine, sampleJSONLine], ∃ r, parseLine refLib line = .ok r) ∧
    parseLogLine refLib ⟨false, [sampleCRILine, sampleJSONLine], true⟩ =
      .error (.expectNoError "failed to read log by row: %v") := by
  refine ⟨?_, rfl⟩
  intro line hline
  simp only [List.mem_cons, List.mem_singleton, List.not_mem_nil, or_false] at hline
  rcases hline with h | h
  · exact ⟨⟨⟨2016, 10, 6, 0, 17, 9, 669794202, 0⟩, "stdout".toList,
      "The content of the log entry 1\n".toList⟩, by rw [h]; rfl⟩
  · exact ⟨⟨⟨2020, 1, 1, 0, 0, 0, 0, 0⟩, "stdout".toList, "hi\n".toList⟩, by rw [h]; rfl⟩

/-- C4, amended: for a file all of whose lines parse.  If `os.Open` succeeds and
`scanner.Err()` is nil after the loop, `parseLogLine` returns as many records as there are
lines, and the record at position `i` is the parse of the line at position `i` taken on its
own, from a fresh message: line order is kept, no timestamp is looked at, nothing is
carried over from another line.  If `os.Open` fails, or if `scanner.Err()` is non-nil after
the loop, `parseLogLine` fails and returns no record list. -/
theorem parseLogLine_line_order {Time : Type} [Inhabited Time] (lib : Lib Time)
    (f : LogFile) (hall : ∀ line ∈ f.lines, ∃ r, parseLine lib line = .ok r) :
    (f.openErr = false → f.scanErr = false →
      ∃ out, parseLogLine lib f = .ok out ∧ out.length = f.lines.length ∧
        ∀ (i : Nat) (line : Str), f.lines[i]? = some line →
          ∃ r, out[i]? = some r ∧ parseLine lib line = .ok r) ∧
    (f.openErr = true →
      parseLogLine lib f = .error (.expectNoError "failed to open log file: %v")) ∧
    (f.openErr = false → f.scanErr = true →
      parseLogLine lib f = .error (.expectNoError "failed to read log by row: %v")) := by
  obtain ⟨out, hout⟩ := mapM_ok_of_forall (parseLine lib) f.lines hall
  refine ⟨?_, ?_, ?_⟩
  · intro hopen hscan
    refine ⟨out, ?_, mapM_ok_index (parseLine lib) f.lines out hout⟩
    rw [parseLogLine_eq_mapM lib f hopen, hscan, hout]
    simp
  · intro hopen
    unfold parseLogLine
    rw [hopen]
    rfl
  · intro hopen hscan
    rw [parseLogLine_eq_mapM lib f hopen, hscan, hout]
    simp

/-- Two lines whose timestamps are out of order come back in file order. -/
theorem parseLogLine_line_order_witness :
    ∃ out, parseLogLine refLib ⟨false, [sampleJSONLine, sampleCRILine], false⟩ = .ok out ∧
      out.length = 2 ∧
      ∀ (i : Nat) (line : Str), [sampleJSONLine, sampleCRILine][i]? = some line →
        ∃ r, out[i]? = some r ∧ parseLine refLib line = .ok r :=
  (parseLogLine_line_order refLib ⟨false, [sampleJSONLine, sampleCRILine], false⟩
    (by
      intro line hline
      simp only [List.mem_cons, List.mem_singleton, List.not_mem_nil, or_false] at hline
      rcases hline with h | h
      · exact ⟨⟨⟨2020, 1, 1, 0, 0, 0, 0, 0⟩, "stdout".toList, "hi\n".toList⟩, by rw [h]; rfl⟩
      · exact ⟨⟨⟨2016, 10, 6, 0, 17, 9, 669794202, 0⟩, "stdout".toList,
          "The content of the log entry 1\n".toList⟩, by rw [h]; rfl⟩)).1 rfl rfl

/-- C5, refuted as stated: a plaintext line with exactly two tokens, a valid timestamp and a
stream tag, is parsed into a record with the empty message (payload: one newline). -/
theorem two_token_line_yields_record :
    emptyMessageLine.head? ≠ some '{' ∧ (Fields emptyMessageLine).length = 2 ∧
    parseCRILog refLib emptyMessageLine default =
      .ok ⟨⟨2016, 10, 6, 0, 17, 9, 669794202, 0⟩, "stdout".toList, "\n".toList⟩ ∧
    parseLogLine refLib ⟨false, [emptyMessageLine], false⟩ =
      .ok [⟨⟨2016, 10, 6, 0, 17, 9, 669794202, 0⟩, "stdout".toList, "\n".toList⟩] :=
  ⟨by decide, by decide, rfl, rfl⟩

/-- C5, amended: for a plaintext line with fewer than three tokens, `parseCRILog` fails and
yields no record when the line has no token or one token; when it has exactly two tokens it
fails if the first is not a valid timestamp, and otherwise yields the record with that
time, the second token as stream and a payload of one newline. -/
theorem parseCRILog_short_line {Time : Type} (lib : Lib Time) (line : Str)
    (msg : logMessage Time) (_hplain : line.head? ≠ some '{')
    (hshort : (Fields line).length < 3) :
    (Fields line = [] ∧ parseCRILog lib line msg = .error .indexOutOfRange) ∨
    (∃ first, Fields line = [first] ∧
      parseCRILog lib line msg =
        match lib.timeParse first with
        | none => .error (.expectNoError "failed to parse timeStamp: %v")
        | some _ => .error .indexOutOfRange) ∨
    (∃ first stream, Fields line = [first, stream] ∧
      parseCRILog lib line msg =
        match lib.timeParse first with
        | none => .error (.expectNoError "failed to parse timeStamp: %v")
        | some t => .ok ⟨t, stream, "\n".toList⟩) := by
  unfold parseCRILog
  cases hf : Fields line with
  | nil => exact Or.inl ⟨rfl, rfl⟩
  | cons first rest =>
    cases rest with
    | nil =>
      refine Or.inr (Or.inl ⟨first, rfl, ?_⟩)
      cases ht : lib.timeParse first with
      | none => simp [ht]
      | some t => simp [ht]
    | cons stream rest =>
      cases rest with
      | nil =>
        refine Or.inr (Or.inr ⟨first, stream, rfl, ?_⟩)
        cases ht : lib.timeParse first with
        | none => simp [ht]
        | some t => simp [ht, Join]
      | cons third rest =>
        rw [hf] at hshort
        simp only [List.length_cons] at hshort
        omega

/-- The two-token line falls in the last case of the amended claim. -/
theorem parseCRILog_short_line_witness :
    emptyMessageLine.head? ≠ some '{' ∧ (Fields emptyMessageLine).length < 3 ∧
    parseCRILog refLib emptyMessageLine default =
      .ok ⟨⟨2016, 10, 6, 0, 17, 9, 669794202, 0⟩, "stdout".toList, "\n".toList⟩ := by
  refine ⟨by decide, by decide, ?_⟩
  rcases parseCRILog_short_line refLib emptyMessageLine default (by decide) (by decide) with
    h | h | h
  · exact absurd h.1 (by decide)
  · obtain ⟨first, hf, _⟩ := h
    have hlen : (Fields emptyMessageLine).length = 1 := by rw [hf]; rfl
    exact absurd hlen (by decide)
  · rfl

/-- C6: if the lines before `bad` parse and `bad` is a line starting with an opening brace
that does not decode, or a plaintext line whose first token is not a valid timestamp, then
`parseLogLine` fails with the failure of `bad` itself, whatever lines follow and whatever
the scanner reports at the end: the line is not skipped, the lines after it play no part,
no record list comes back.  And wherever such a line stands in a file, `parseLogLine`
returns no record list. -/
theorem parseLogLine_stops_at_bad_line {Time : Type} [Inhabited Time] (lib : Lib Time)
    (pre : List Str) (bad : Str)
    (hpre : ∀ line ∈ pre, ∃ r, parseLine lib line = .ok r)
    (hbad : (bad.head? = some '{' ∧ lib.jsonUnmarshal bad = none) ∨
      (bad.head? ≠ some '{' ∧ ∃ first others, Fields bad = first :: others ∧
        lib.timeParse first = none)) :
    (∃ e, parseLine lib bad = .error e ∧
      ∀ (rest : List Str) (scanErr : Bool),
        parseLogLine lib ⟨false, pre ++ bad :: rest, scanErr⟩ = .error e) ∧
    (∀ (f : LogFile), bad ∈ f.lines → ∃ e, parseLogLine lib f = .error e) := by
  have hfail : ∃ e, parseLine lib bad = .error e := by
    unfold parseLine scanBody
    rcases hbad with ⟨hb, hj⟩ | ⟨hb, first, others, hf, ht⟩
    · rw [if_pos ((hasPrefix_brace bad).mpr hb)]
      unfold parseDockerJSONLog
      rw [hj]
      exact ⟨_, rfl⟩
    · rw [if_neg (fun hp => hb ((hasPrefix_brace bad).mp hp))]
      unfold parseCRILog
      simp [hf, ht]
  obtain ⟨e, he⟩ := hfail
  refine ⟨⟨e, he, ?_⟩, ?_⟩
  · intro rest scanErr
    rw [parseLogLine_eq_mapM lib _ rfl]
    simp only
    rw [mapM_error_at (parseLine lib) bad e he rest pre hpre]
  · intro f hmem
    cases ho : f.openErr with
    | true => exact ⟨.expectNoError "failed to open log file: %v", by simp [parseLogLine, ho]⟩
    | false =>
      rw [parseLogLine_eq_mapM lib f ho]
      obtain ⟨e', he'⟩ := mapM_error_of_mem (parseLine lib) bad e he f.lines hmem
      rw [he']
      exact ⟨e', rfl⟩

/-- A broken second line stops the parse although the first and the third line are fine. -/
theorem parseLogLine_stops_at_bad_line_witness :
    parseLogLine refLib ⟨false, [sampleCRILine, brokenLine, sampleJSONLine], false⟩ =
      .error (.expectNoError "failed to parse timeStamp: %v") := by
  obtain ⟨⟨e, he, hall⟩, _⟩ := parseLogLine_stops_at_bad_line refLib [sampleCRILine] brokenLine
    (by
      intro line hline
      rw [List.mem_singleton] at hline
      exact ⟨⟨⟨2016, 10, 6, 0, 17, 9, 669794202, 0⟩, "stdout".toList,
        "The content of the log entry 1\n".toList⟩, by rw [hline]; rfl⟩)
    (Or.inr ⟨by decide, "not-a-timestamp".toList, ["stdout".toList, "lost".toList],
      by decide, by decide⟩)
  have hval : parseLine refLib brokenLine =
      .error (.expectNoError "failed to parse timeStamp: %v") := rfl
  rw [hval] at he
  cases he
  exact hall [sampleJSONLine] false

/-- C7, refuted as stated: the plaintext parser copies the second token whatever it is, so
a record can carry a stream tag that is neither `stdout` nor `stderr`. -/
theorem stream_tag_not_validated :
    ∃ r, parseCRILog refLib oddStreamLine default = .ok r ∧
      parseLogLine refLib ⟨false, [oddStreamLine], false⟩ = .ok [r] ∧
      r.stream = "foo".toList ∧ r.stream ≠ stdoutType ∧ r.stream ≠ stderrType :=
  ⟨⟨⟨2016, 10, 6, 0, 17, 9, 669794202, 0⟩, "foo".toList, "bar\n".toList⟩,
    rfl, rfl, rfl, by decide, by decide⟩

/-- C7, amended: the stream tag of every record produced by the parser is the second token of
its line (plaintext) or the `stream` field of its line (JSON), copied without validation;
so it is `stdout` or `stderr` exactly when that token or field is. -/
theorem stream_tag_is_copied {Time : Type} [Inhabited Time] (lib : Lib Time) :
    (∀ line msg r, parseCRILog lib line msg = .ok r → (Fields line)[1]? = some r.stream) ∧
    (∀ line msg r, parseDockerJSONLog lib line msg = .ok r →
      ∃ l, lib.jsonUnmarshal line = some l ∧ r.stream = l.Stream) ∧
    (∀ f out, parseLogLine lib f = .ok out → ∀ r ∈ out, ∃ line ∈ f.lines,
      (line.head? = some '{' ∧ ∃ l, lib.jsonUnmarshal line = some l ∧ r.stream = l.Stream) ∨
      (line.head? ≠ some '{' ∧ (Fields line)[1]? = some r.stream)) := by
  refine ⟨parseCRILog_stream lib, parseDockerJSONLog_stream lib, ?_⟩
  intro f out h r hr
  obtain ⟨line, hline, hparse⟩ :=
    mapM_ok_mem (parseLine lib) f.lines out (parseLogLine_ok_mapM lib f out h) r hr
  refine ⟨line, hline, ?_⟩
  unfold parseLine scanBody at hparse
  by_cases hb : line.head? = some '{'
  · rw [if_pos ((hasPrefix_brace line).mpr hb)] at hparse
    exact Or.inl ⟨hb, parseDockerJSONLog_stream lib line _ r hparse⟩
  · rw [if_neg (fun hp => hb ((hasPrefix_brace line).mp hp))] at hparse
    exact Or.inr ⟨hb, parseCRILog_stream lib line _ r hparse⟩

/-- On the specification's plaintext line the copied token is `stdout`. -/
theorem stream_tag_is_copied_witness :
    (Fields sampleCRILine)[1]? = some stdoutType :=
  (stream_tag_is_copied refLib).1 sampleCRILine default
    ⟨⟨2016, 10, 6, 0, 17, 9, 669794202, 0⟩, "stdout".toList,
      "The content of the log entry 1\n".toList⟩ rfl

/-! ## Container creation: lemmas -/

theorem contains_char (c : Char) : ∀ (s : Str), Contains s [c] = true ↔ c ∈ s
  | [] => by simp [Contains, HasPrefix]
  | d :: ds => by
    unfold Contains
    simp only [HasPrefix, Bool.and_true, Bool.or_eq_true, beq_iff_eq, List.mem_cons]
    rw [contains_char c ds]
    constructor
    · rintro (h | h)
      · exact Or.inl h.symm
      · exact Or.inr h
    · rintro (h | h)
      · exact Or.inl h.symm
      · exact Or.inr h

theorem contains_colon (s : Str) : Contains s ":".toList = true ↔ ':' ∈ s :=
  contains_char ':' s

theorem lookupName_of_not_mem (ref : Str) (h : ':' ∉ ref) :
    lookupName ref = ref ++ ":latest".toList := by
  unfold lookupName
  have hc : Contains ref ":".toList = false := by
    cases hb : Contains ref ":".toList with
    | false => rfl
    | true => exact absurd ((contains_colon ref).mp hb) h
  rw [hc]
  rfl

theorem lookupName_of_mem (ref : Str) (h : ':' ∈ ref) : lookupName ref = ref := by
  unfold lookupName
  rw [(contains_colon ref).mpr h]
  rfl

theorem lookupName_contains (ref : Str) : Contains (lookupName ref) ":".toList = true := by
  by_cases h : ':' ∈ ref
  · rw [lookupName_of_mem ref h]
    exact (contains_colon ref).mpr h
  · rw [lookupName_of_not_mem ref h]
    apply (contains_colon _).mpr
    apply List.mem_append_right
    decide

/-- The requests `CreateContainer` sends, case by case on what the services answer. -/
theorem CreateContainer_sent (rc : RuntimeService) (ic : ImageManagerService)
    (config : ContainerConfig) (podID : Str) (podConfig : PodSandboxConfig)
    (image : ImageSpec) (himg : config.Image = some image) :
    (CreateContainer rc ic config podID podConfig).1 =
      match ic.ImageStatus ⟨lookupName image.Image⟩ with
      | .error _ => [.imageStatus ⟨lookupName image.Image⟩]
      | .ok (some _) => [.imageStatus ⟨lookupName image.Image⟩,
          .createContainer podID config podConfig]
      | .ok none =>
        match ic.PullImage ⟨lookupName image.Image⟩ with
        | .error _ => [.imageStatus ⟨lookupName image.Image⟩,
            .pullImage ⟨lookupName image.Image⟩]
        | .ok _ => [.imageStatus ⟨lookupName image.Image⟩,
            .pullImage ⟨lookupName image.Image⟩, .createContainer podID config podConfig] := by
  have hpull : PullPublicImage ic (lookupName image.Image) =
      match ic.PullImage ⟨lookupName image.Image⟩ with
      | .error _ => ([.pullImage ⟨lookupName image.Image⟩],
          .error (.expectNoError "failed to pull image: %v"))
      | .ok _ => ([.pullImage ⟨lookupName image.Image⟩], .ok ()) := by
    unfold PullPublicImage
    simp only [lookupName_contains, Bool.not_true, Bool.false_eq_true, if_false]
  unfold CreateContainer
  rw [himg]
  change (match ImageStatus ic (lookupName image.Image) with
    | (sent, Except.error e) => (sent, Except.error e)
    | (sent, Except.ok status) =>
      match (if status.isNone then PullPublicImage ic (lookupName image.Image)
             else ([], Except.ok ())) with
      | (sent', Except.error e) => (sent ++ sent', Except.error e)
      | (sent', Except.ok _) =>
        match rc.CreateContainer podID config podConfig with
        | Except.error _ => (sent ++ sent' ++ [Call.createContainer podID config podConfig],
            Except.error (Failure.expectNoError "failed to create container: %v"))
        | Except.ok containerID =>
          (sent ++ sent' ++ [Call.createContainer podID config podConfig],
            Except.ok containerID)).1 = _
  simp only [ImageStatus]
  cases hs : ic.ImageStatus ⟨lookupName image.Image⟩ with
  | error e => rfl
  | ok status =>
    cases status with
    | some img =>
      simp only [Option.isNone_some, Bool.false_eq_true, if_false]
      cases rc.CreateContainer podID config podConfig <;> rfl
    | none =>
      simp only [Option.isNone_none, if_true, hpull]
      cases hp : ic.PullImage ⟨lookupName image.Image⟩ with
      | error e => rfl
      | ok id =>
        simp only
        cases rc.CreateContainer podID config podConfig <;> rfl

/-- Every request to the image service carries the computed name: the status request comes
first, and the pull request, when the image is absent, second. -/
theorem CreateContainer_image_requests (rc : RuntimeService) (ic : ImageManagerService)
    (config : ContainerConfig) (podID : Str) (podConfig : PodSandboxConfig)
    (image : ImageSpec) (himg : config.Image = some image) :
    (CreateContainer rc ic config podID podConfig).1.head? =
        some (.imageStatus ⟨lookupName image.Image⟩) ∧
    (ic.ImageStatus ⟨lookupName image.Image⟩ = .ok none →
      (CreateContainer rc ic config podID podConfig).1[1]? =
        some (.pullImage ⟨lookupName image.Image⟩)) ∧
    (∀ spec, (Call.imageStatus spec ∈ (CreateContainer rc ic config podID podConfig).1 ∨
        Call.pullImage spec ∈ (CreateContainer rc ic config podID podConfig).1) →
      spec = ⟨lookupName image.Image⟩) := by
  rw [CreateContainer_sent rc ic config podID podConfig image himg]
  cases hs : ic.ImageStatus ⟨lookupName image.Image⟩ with
  | error e =>
    refine ⟨rfl, fun h => (by cases h), ?_⟩
    intro spec h
    simpa using h
  | ok status =>
    cases status with
    | some img =>
      refine ⟨rfl, fun h => (by cases h), ?_⟩
      intro spec h
      simpa using h
    | none =>
      cases hp : ic.PullImage ⟨lookupName image.Image⟩ with
      | error e =>
        refine ⟨rfl, fun _ => rfl, ?_⟩
        intro spec h
        simpa using h
      | ok id =>
        refine ⟨rfl, fun _ => rfl, ?_⟩
        intro spec h
        simpa using h

/-! ## Container creation: claims -/

/-- C8, refuted as stated: `localhost:5000/busybox` has no colon after its last slash, yet
it is sent to `ImageStatus` and to `PullImage` as it is, without `:latest`. -/
theorem registry_port_reference_sent_bare :
    lacksTag "localhost:5000/busybox".toList = true ∧
    (CreateContainer sampleRuntimeService emptyImageService
        (configWithImage "localhost:5000/busybox".toList) "pod".toList samplePodConfig).1 =
      [.imageStatus ⟨"localhost:5000/busybox".toList⟩,
       .pullImage ⟨"localhost:5000/busybox".toList⟩,
       .createContainer "pod".toList (configWithImage "localhost:5000/busybox".toList)
         samplePodConfig] :=
  ⟨by decide, by decide⟩

/-- C8, amended: when the image reference contains no colon at all, the first request
`CreateContainer` sends is `ImageStatus` for the reference followed by `:latest`; when the
image is absent the second is `PullImage` for the same name; every request to the image
service carries that name, and the bare reference is sent to neither method.  When the
reference contains a colon anywhere (a tag, a digest, or a registry port), both methods get
the reference unchanged. -/
theorem CreateContainer_default_tag (rc : RuntimeService) (ic : ImageManagerService)
    (config : ContainerConfig) (podID : Str) (podConfig : PodSandboxConfig) (ref : Str)
    (himg : config.Image = some ⟨ref⟩) :
    (':' ∉ ref →
      (CreateContainer rc ic config podID podConfig).1.head? =
          some (.imageStatus ⟨ref ++ ":latest".toList⟩) ∧
      (ic.ImageStatus ⟨ref ++ ":latest".toList⟩ = .ok none →
        (CreateContainer rc ic config podID podConfig).1[1]? =
          some (.pullImage ⟨ref ++ ":latest".toList⟩)) ∧
      (∀ spec, (Call.imageStatus spec ∈ (CreateContainer rc ic config podID podConfig).1 ∨
          Call.pullImage spec ∈ (CreateContainer rc ic config podID podConfig).1) →
        spec = ⟨ref ++ ":latest".toList⟩) ∧
      Call.imageStatus ⟨ref⟩ ∉ (CreateContainer rc ic config podID podConfig).1 ∧
      Call.pullImage ⟨ref⟩ ∉ (CreateContainer rc ic config podID podConfig).1) ∧
    (':' ∈ ref →
      (CreateContainer rc ic config podID podConfig).1.head? = some (.imageStatus ⟨ref⟩) ∧
      (ic.ImageStatus ⟨ref⟩ = .ok none →
        (CreateContainer rc ic config podID podConfig).1[1]? = some (.pullImage ⟨ref⟩)) ∧
      (∀ spec, (Call.imageStatus spec ∈ (CreateContainer rc ic config podID podConfig).1 ∨
          Call.pullImage spec ∈ (CreateContainer rc ic config podID podConfig).1) →
        spec = ⟨ref⟩)) := by
  obtain ⟨hhead, hpull, hall⟩ :=
    CreateContainer_image_requests rc ic config podID podConfig ⟨ref⟩ himg
  constructor
  · intro hcolon
    rw [lookupName_of_not_mem ref hcolon] at hhead hpull hall
    have hne : (⟨ref⟩ : ImageSpec) ≠ ⟨ref ++ ":latest".toList⟩ := by
      intro h
      have hlen := congrArg (fun (i : ImageSpec) => i.Image.length) h
      simp at hlen
    exact ⟨hhead, hpull, hall,
      fun h => hne (hall ⟨ref⟩ (Or.inl h)), fun h => hne (hall ⟨ref⟩ (Or.inr h))⟩
  · intro hcolon
    rw [lookupName_of_mem ref hcolon] at hhead hpull hall
    exact ⟨hhead, hpull, hall⟩

/-- For the reference `busybox` the status request names `busybox:latest`. -/
theorem CreateContainer_default_tag_witness :
    (CreateContainer sampleRuntimeService emptyImageService
        (configWithImage "busybox".toList) "pod".toList samplePodConfig).1.head? =
      some (.imageStatus ⟨"busybox:latest".toList⟩) :=
  ((CreateContainer_default_tag sampleRuntimeService emptyImageService
      (configWithImage "busybox".toList) "pod".toList samplePodConfig "busybox".toList rfl).1
    (by decide)).1

/-- C9, refuted as stated: when the image is absent and the pull fails, the runtime's
`CreateContainer` is not called at all. -/
theorem failed_pull_skips_create :
    (CreateContainer sampleRuntimeService offlineImageService
        (configWithImage "busybox:1.26".toList) "pod".toList samplePodConfig) =
      ([.imageStatus ⟨"busybox:1.26".toList⟩, .pullImage ⟨"busybox:1.26".toList⟩],
        .error (.expectNoError "failed to pull image: %v")) ∧
    ∀ podID config podConfig, Call.createContainer podID config podConfig ∉
      (CreateContainer sampleRuntimeService offlineImageService
        (configWithImage "busybox:1.26".toList) "pod".toList samplePodConfig).1 := by
  have h : (CreateContainer sampleRuntimeService offlineImageService
        (configWithImage "busybox:1.26".toList) "pod".toList samplePodConfig) =
      ([.imageStatus ⟨"busybox:1.26".toList⟩, .pullImage ⟨"busybox:1.26".toList⟩],
        .error (.expectNoError "failed to pull image: %v")) := rfl
  refine ⟨h, ?_⟩
  intro podID config podConfig hmem
  rw [h] at hmem
  simp at hmem

/-- C9, amended: for a config with an image, `CreateContainer` sends a `PullImage` request
if and only if `ImageStatus` reports the computed image name as absent.  When the image is
present the requests are the status check and then the runtime's `CreateContainer`; when
it is absent and the pull succeeds they are the status check, the pull, and then the
runtime's `CreateContainer`: in both cases that call, with the arguments as supplied, is
made exactly once and last.  When `ImageStatus` or `PullImage` returns an error the
function stops there and the runtime's `CreateContainer` is not called. -/
theorem CreateContainer_pull_iff_absent (rc : RuntimeService) (ic : ImageManagerService)
    (config : ContainerConfig) (podID : Str) (podConfig : PodSandboxConfig)
    (image : ImageSpec) (himg : config.Image = some image) :
    ((∃ spec, Call.pullImage spec ∈ (CreateContainer rc ic config podID podConfig).1) ↔
      ic.ImageStatus ⟨lookupName image.Image⟩ = .ok none) ∧
    (∀ img, ic.ImageStatus ⟨lookupName image.Image⟩ = .ok (some img) →
      (CreateContainer rc ic config podID podConfig).1 =
        [.imageStatus ⟨lookupName image.Image⟩, .createContainer podID config podConfig]) ∧
    (∀ id, ic.ImageStatus ⟨lookupName image.Image⟩ = .ok none →
      ic.PullImage ⟨lookupName image.Image⟩ = .ok id →
      (CreateContainer rc ic config podID podConfig).1 =
        [.imageStatus ⟨lookupName image.Image⟩, .pullImage ⟨lookupName image.Image⟩,
          .createContainer podID config podConfig]) ∧
    (∀ e, ic.ImageStatus ⟨lookupName image.Image⟩ = .error e →
      (CreateContainer rc ic config podID podConfig).1 =
        [.imageStatus ⟨lookupName image.Image⟩]) ∧
    (∀ e, ic.ImageStatus ⟨lookupName image.Image⟩ = .ok none →
      ic.PullImage ⟨lookupName image.Image⟩ = .error e →
      (CreateContainer rc ic config podID podConfig).1 =
        [.imageStatus ⟨lookupName image.Image⟩, .pullImage ⟨lookupName image.Image⟩]) := by
  rw [CreateContainer_sent rc ic config podID podConfig image himg]
  cases hs : ic.ImageStatus ⟨lookupName image.Image⟩ with
  | error e => simp
  | ok status =>
    cases status with
    | some img => simp
    | none =>
      cases hp : ic.PullImage ⟨lookupName image.Image⟩ with
      | error e => simp
      | ok id => simp

/-- With the image present the requests are the status check and the creation; no pull. -/
theorem CreateContainer_pull_iff_absent_witness :
    (CreateContainer sampleRuntimeService fullImageService
        (configWithImage "busybox:1.26".toList) "pod".toList samplePodConfig).1 =
      [.imageStatus ⟨"busybox:1.26".toList⟩,
       .createContainer "pod".toList (configWithImage "busybox:1.26".toList) samplePodConfig] :=
  (CreateContainer_pull_iff_absent sampleRuntimeService fullImageService
      (configWithImage "busybox:1.26".toList) "pod".toList samplePodConfig
      ⟨"busybox:1.26".toList⟩ rfl).2.1 ⟨"busybox:1.26".toList⟩ rfl

/-! ## Unique identifiers: lemmas -/

theorem hexDigit_injective : ∀ a b : Fin 16, hexDigit a.val = hexDigit b.val → a = b := by
  decide

theorem hexByte_injective (a b : Fin 256) (h : hexByte a = hexByte b) : a = b := by
  unfold hexByte at h
  have h1 : hexDigit (a.val / 16) = hexDigit (b.val / 16) := by
    have := congrArg (fun l => l.getD 0 'x') h
    simpa using this
  have h2 : hexDigit (a.val % 16) = hexDigit (b.val % 16) := by
    have := congrArg (fun l => l.getD 1 'x') h
    simpa using this
  have ha : a.val / 16 < 16 := by have := a.isLt; omega
  have hb : b.val / 16 < 16 := by have := b.isLt; omega
  have e1 := hexDigit_injective ⟨a.val / 16, ha⟩ ⟨b.val / 16, hb⟩ h1
  have e2 := hexDigit_injective ⟨a.val % 16, Nat.mod_lt _ (by decide)⟩
    ⟨b.val % 16, Nat.mod_lt _ (by decide)⟩ h2
  have e1' : a.val / 16 = b.val / 16 := congrArg Fin.val e1
  have e2' : a.val % 16 = b.val % 16 := congrArg Fin.val e2
  apply Fin.ext
  omega

theorem hex_length : ∀ (a : List (Fin 256)), (hex a).length = 2 * a.length
  | [] => rfl
  | b :: bs => by
    simp only [hex, hexByte, List.cons_append, List.nil_append, List.length_cons, hex_length bs]
    omega

theorem hex_injective : ∀ (a b : List (Fin 256)), hex a = hex b → a = b
  | [], [], _ => rfl
  | [], y :: ys, h => by simp [hex, hexByte] at h
  | x :: xs, [], h => by simp [hex, hexByte] at h
  | x :: xs, y :: ys, h => by
    simp only [hex] at h
    have hlen : (hexByte x).length = (hexByte y).length := rfl
    obtain ⟨h1, h2⟩ := List.append_inj h hlen
    rw [hexByte_injective x y h1, hex_injective xs ys h2]

theorem take_drop_parts (a : UUID) :
    a = a.take 4 ++ ((a.drop 4).take 2 ++ ((a.drop 6).take 2 ++
      ((a.drop 8).take 2 ++ a.drop 10))) := by
  have h1 : (a.drop 8).take 2 ++ a.drop 10 = a.drop 8 := by
    have := List.take_append_drop 2 (a.drop 8)
    rwa [List.drop_drop] at this
  have h2 : (a.drop 6).take 2 ++ a.drop 8 = a.drop 6 := by
    have := List.take_append_drop 2 (a.drop 6)
    rwa [List.drop_drop] at this
  have h3 : (a.drop 4).take 2 ++ a.drop 6 = a.drop 4 := by
    have := List.take_append_drop 2 (a.drop 4)
    rwa [List.drop_drop] at this
  rw [h1, h2, h3, List.take_append_drop]

theorem uuidString_injective_16 (a b : UUID) (ha : a.length = 16) (hb : b.length = 16)
    (h : uuidString a = uuidString b) : a = b := by
  unfold uuidString at h
  rw [if_neg (by simp [ha]), if_neg (by simp [hb])] at h
  have l1 : (hex (a.take 4)).length = (hex (b.take 4)).length := by
    simp [hex_length, ha, hb]
  obtain ⟨e1, h⟩ := List.append_inj h l1
  have h := List.tail_eq_of_cons_eq h
  have l2 : (hex ((a.drop 4).take 2)).length = (hex ((b.drop 4).take 2)).length := by
    simp [hex_length, ha, hb]
  obtain ⟨e2, h⟩ := List.append_inj h l2
  have h := List.tail_eq_of_cons_eq h
  have l3 : (hex ((a.drop 6).take 2)).length = (hex ((b.drop 6).take 2)).length := by
    simp [hex_length, ha, hb]
  obtain ⟨e3, h⟩ := List.append_inj h l3
  have h := List.tail_eq_of_cons_eq h
  have l4 : (hex ((a.drop 8).take 2)).length = (hex ((b.drop 8).take 2)).length := by
    simp [hex_length, ha, hb]
  obtain ⟨e4, h⟩ := List.append_inj h l4
  have e5 := List.tail_eq_of_cons_eq h
  rw [take_drop_parts a, take_drop_parts b, hex_injective _ _ e1, hex_injective _ _ e2,
    hex_injective _ _ e3, hex_injective _ _ e4, hex_injective _ _ e5]

/-- On the values the library hands out, nil or 16 bytes, the string form is injective. -/
theorem uuidString_injective (a b : UUID) (ha : a = [] ∨ a.length = 16)
    (hb : b = [] ∨ b.length = 16) (h : uuidString a = uuidString b) : a = b := by
  have hlen16 : ∀ (u : UUID), u.length = 16 → (uuidString u).length = 36 := by
    intro u hu
    unfold uuidString
    rw [if_neg (by simp [hu])]
    simp [hex_length, hu]
  rcases ha with ha | ha <;> rcases hb with hb | hb
  · rw [ha, hb]
  · have := hlen16 b hb
    rw [← h, ha] at this
    simp [uuidString] at this
  · have := hlen16 a ha
    rw [h, hb] at this
    simp [uuidString] at this
  · exact uuidString_injective_16 a b ha hb h

/-- What the waiting loop returns: the first candidate from position `p` on that differs
from `lastUUID`; all candidates before it were equal to `lastUUID` and dropped. -/
theorem waitLoop_spec (src : Nat → UUID) (lastUUID : UUID) :
    ∀ (fuel p : Nat) (result : UUID) (drawn : Nat),
      waitLoop src lastUUID fuel (p + 1) (src p) = some (result, drawn) →
      ∃ q, p ≤ q ∧ result = src q ∧ drawn = q + 1 ∧ src q ≠ lastUUID ∧
        ∀ i, p ≤ i → i < q → src i = lastUUID
  | 0, p, result, drawn, h => by simp [waitLoop] at h
  | fuel + 1, p, result, drawn, h => by
    unfold waitLoop at h
    by_cases heq : uuidEqual lastUUID (src p) = true
    · rw [if_pos heq] at h
      obtain ⟨q, hq, hres, hdrawn, hne, hbefore⟩ :=
        waitLoop_spec src lastUUID fuel (p + 1) result drawn h
      have hp : src p = lastUUID := by
        unfold uuidEqual at heq
        exact (beq_iff_eq.mp heq).symm
      refine ⟨q, by omega, hres, hdrawn, hne, ?_⟩
      intro i hi hiq
      by_cases hip : i = p
      · rw [hip]; exact hp
      · exact hbefore i (by omega) hiq
    · rw [if_neg heq] at h
      simp only [Option.some.injEq, Prod.mk.injEq] at h
      refine ⟨p, le_refl p, h.1.symm, h.2.symm, ?_, ?_⟩
      · intro hp
        apply heq
        unfold uuidEqual
        rw [hp]
        exact beq_self_eq_true _
      · intro i hi hip
        omega

theorem NewUUID_spec (src : Nat → UUID) (fuel : Nat) (g g' : Generator) (token : Str)
    (h : NewUUID src fuel g = some (token, g')) :
    ∃ q, g.drawn ≤ q ∧ token = uuidString (src q) ∧ g' = ⟨src q, q + 1⟩ ∧
      src q ≠ g.lastUUID ∧ ∀ i, g.drawn ≤ i → i < q → src i = g.lastUUID := by
  unfold NewUUID at h
  cases hw : waitLoop src g.lastUUID fuel (g.drawn + 1) (src g.drawn) with
  | none => rw [hw] at h; cases h
  | some res =>
    obtain ⟨result, drawn⟩ := res
    rw [hw] at h
    simp only [Option.some.injEq, Prod.mk.injEq] at h
    obtain ⟨q, hq, hres, hdrawn, hne, hbefore⟩ :=
      waitLoop_spec src g.lastUUID fuel g.drawn result drawn hw
    refine ⟨q, hq, ?_, ?_, hne, hbefore⟩
    · rw [← h.1, hres]
    · rw [← h.2, hres, hdrawn]

/-- Tokens issued from a state whose `lastUUID` is the candidate drawn last: when the source
never returns to a value it has left, they are pairwise distinct, and each comes from a
later candidate that differs from `lastUUID`. -/
theorem issue_distinct (src : Nat → UUID) (fuel : Nat)
    (hshape : ∀ i, src i = [] ∨ (src i).length = 16)
    (hmono : ∀ i j k, i ≤ j → j ≤ k → src i = src k → src j = src i) :
    ∀ (n : Nat) (g : Generator) (tokens : List Str) (g' : Generator),
      (1 ≤ g.drawn → g.lastUUID = src (g.drawn - 1)) →
      issue src fuel n g = some (tokens, g') →
      tokens.Nodup ∧ tokens.length = n ∧
        ∀ t ∈ tokens, ∃ q, g.drawn ≤ q ∧ t = uuidString (src q) ∧
          (1 ≤ g.drawn → src q ≠ src (g.drawn - 1))
  | 0, g, tokens, g', _, h => by
    simp only [issue, Option.some.injEq, Prod.mk.injEq] at h
    rw [← h.1]
    simp
  | n + 1, g, tokens, g', hinv, h => by
    unfold issue at h
    cases hnew : NewUUID src fuel g with
    | none => rw [hnew] at h; cases h
    | some res =>
      obtain ⟨token, g1⟩ := res
      rw [hnew] at h
      simp only at h
      cases hrest : issue src fuel n g1 with
      | none => rw [hrest] at h; cases h
      | some res' =>
        obtain ⟨rest, g2⟩ := res'
        rw [hrest] at h
        simp only [Option.some.injEq, Prod.mk.injEq] at h
        obtain ⟨q, hq, htoken, hg1, hne, _⟩ := NewUUID_spec src fuel g g1 token hnew
        have hinv1 : 1 ≤ g1.drawn → g1.lastUUID = src (g1.drawn - 1) := by
          intro _
          rw [hg1]
          simp
        obtain ⟨hnodup, hlen, hfrom⟩ := issue_distinct src fuel hshape hmono n g1 rest g2 hinv1 hrest
        have hfrom' : ∀ t ∈ rest, ∃ q', q + 1 ≤ q' ∧ t = uuidString (src q') ∧ src q' ≠ src q := by
          intro t ht
          obtain ⟨q', hq', ht', hne'⟩ := hfrom t ht
          rw [hg1] at hq' hne'
          exact ⟨q', hq', ht', by simpa using hne' (by simp)⟩
        rw [← h.1]
        refine ⟨?_, by simp [hlen], ?_⟩
        · rw [List.nodup_cons]
          refine ⟨?_, hnodup⟩
          intro hmem
          obtain ⟨q', _, ht', hne'⟩ := hfrom' token hmem
          rw [htoken] at ht'
          exact hne' (uuidString_injective _ _ (hshape q) (hshape q') ht').symm
        · intro t ht
          rcases List.mem_cons.mp ht with h1 | h1
          · refine ⟨q, hq, by rw [h1, htoken], ?_⟩
            intro hpos
            rw [← hinv hpos]
            exact hne
          · obtain ⟨q', hq', ht', _⟩ := hfrom' t h1
            refine ⟨q', by omega, ht', ?_⟩
            intro hpos heq
            apply hne
            rw [hinv hpos]
            exact hmono (g.drawn - 1) q q' (by omega) (by omega) heq.symm

/-! ## Unique identifiers: claims -/

/-- C10, refuted as stated: `NewUUID` compares a candidate with the token issued last only.
With a candidate source that returns to an earlier value (a clock that steps back), the
first and the third token are equal. -/
theorem tokens_repeat_when_source_returns :
    issue alternatingSource 4 3 Generator.initial =
      some (["01010101-0101-0101-0101-010101010101".toList,
             "02020202-0202-0202-0202-020202020202".toList,
             "01010101-0101-0101-0101-010101010101".toList], ⟨constUUID 1, 3⟩) ∧
    ¬ ["01010101-0101-0101-0101-010101010101".toList,
       "02020202-0202-0202-0202-020202020202".toList,
       "01010101-0101-0101-0101-010101010101".toList].Nodup :=
  ⟨by decide, by decide⟩

/-- C10, amended: for every sequence of `NewUUID` calls from the initial generator state,
taken in the order in which the calls hold `uuidLock`: if the candidate source hands out
nil or 16-byte values and never returns to a value it has left (equal candidates come only
in one uninterrupted run, as with a clock that does not step back), then the `n` tokens
returned are pairwise distinct. -/
theorem tokens_pairwise_distinct (src : Nat → UUID) (fuel n : Nat) (tokens : List Str)
    (g : Generator)
    (hshape : ∀ i, src i = [] ∨ (src i).length = 16)
    (hmono : ∀ i j k, i ≤ j → j ≤ k → src i = src k → src j = src i)
    (hrun : issue src fuel n Generator.initial = some (tokens, g)) :
    tokens.Nodup ∧ tokens.length = n := by
  obtain ⟨hnodup, hlen, _⟩ :=
    issue_distinct src fuel hshape hmono n Generator.initial tokens g
      (by intro h; simp [Generator.initial] at h) hrun
  exact ⟨hnodup, hlen⟩

/-- Three calls on a source that hands out every value twice return three different
tokens. -/
theorem tokens_pairwise_distinct_witness :
    issue slowSource 10 3 Generator.initial =
      some (["00000000-0000-0000-0000-000000000000".toList,
             "01010101-0101-0101-0101-010101010101".toList,
             "02020202-0202-0202-0202-020202020202".toList], ⟨constUUID 2, 5⟩) ∧
    ["00000000-0000-0000-0000-000000000000".toList,
     "01010101-0101-0101-0101-010101010101".toList,
     "02020202-0202-0202-0202-020202020202".toList].Nodup :=
  ⟨by decide,
    (tokens_pairwise_distinct slowSource 10 3 _ ⟨constUUID 2, 5⟩
      (fun i => Or.inr (by simp [slowSource, constUUID]))
      (by
        intro i j k hij hjk h
        have hval : min (i / 2) 255 = min (k / 2) 255 := by
          have h0 := congrArg (fun (u : UUID) => (u.getD 0 0).val) h
          simpa [slowSource, constUUID] using h0
        have hj : min (j / 2) 255 = min (i / 2) 255 := by omega
        simp only [slowSource, hj])
      (by decide)).1⟩

/-! ## Exec and ExecSync: lemmas -/

theorem hasPrefix_of_append : ∀ (s p q : Str), HasPrefix s (p ++ q) = true → HasPrefix s p = true
  | _, [], _, _ => by simp [HasPrefix]
  | [], c :: p, q, h => by simp [HasPrefix] at h
  | d :: s, c :: p, q, h => by
    simp only [List.cons_append, HasPrefix, Bool.and_eq_true, beq_iff_eq] at h ⊢
    exact ⟨h.1, hasPrefix_of_append s p q h.2⟩

/-- The run of `Exec` once the RPC has answered and the URL has been parsed. -/
theorem Exec_after_parse {U X : Type} (client : ExecEnv U X) (opts : execOptions)
    (r : ExecResponse) (URL : U)
    (hrpc : client.Exec ⟨opts.id, opts.cmd, opts.tty, opts.stdin⟩ = .ok r)
    (hparse : client.urlParse
      (if !HasPrefix r.Url "http".toList then kubeletURLPrefix ++ r.Url else r.Url) = .ok URL) :
    Exec client opts =
      match client.NewExecutor "POST".toList URL with
      | .error err =>
        ([.execRPC ⟨opts.id, opts.cmd, opts.tty, opts.stdin⟩, .newExecutor "POST".toList URL],
          some err)
      | .ok exec =>
        ([.execRPC ⟨opts.id, opts.cmd, opts.tty, opts.stdin⟩, .newExecutor "POST".toList URL,
          .stream exec ⟨client.SupportedStreamingProtocols,
            if opts.stdin then some .stdin else none, some .stdout, some .stderr, opts.tty⟩],
         client.Stream exec ⟨client.SupportedStreamingProtocols,
            if opts.stdin then some .stdin else none, some .stdout, some .stderr, opts.tty⟩) := by
  unfold Exec
  simp only [hrpc, hparse]
  cases client.NewExecutor "POST".toList URL with
  | error err => rfl
  | ok exec =>
    cases opts.stdin <;> rfl

/-- The events of `Exec` are the RPC, then possibly the making of the executor, then
possibly the stream with the options built from `opts`. -/
theorem Exec_events {U X : Type} (client : ExecEnv U X) (opts : execOptions) :
    (Exec client opts).1 = [.execRPC ⟨opts.id, opts.cmd, opts.tty, opts.stdin⟩] ∨
    (∃ URL, (Exec client opts).1 =
      [.execRPC ⟨opts.id, opts.cmd, opts.tty, opts.stdin⟩, .newExecutor "POST".toList URL]) ∨
    (∃ URL exec, (Exec client opts).1 =
      [.execRPC ⟨opts.id, opts.cmd, opts.tty, opts.stdin⟩, .newExecutor "POST".toList URL,
        .stream exec ⟨client.SupportedStreamingProtocols,
          if opts.stdin then some .stdin else none, some .stdout, some .stderr, opts.tty⟩]) := by
  cases hrpc : client.Exec ⟨opts.id, opts.cmd, opts.tty, opts.stdin⟩ with
  | error err =>
    left
    unfold Exec
    simp only [hrpc]
  | ok r =>
    cases hparse : client.urlParse
        (if !HasPrefix r.Url "http".toList then kubeletURLPrefix ++ r.Url else r.Url) with
    | error err =>
      left
      unfold Exec
      simp only [hrpc, hparse]
    | ok URL =>
      rw [Exec_after_parse client opts r URL hrpc hparse]
      cases client.NewExecutor "POST".toList URL with
      | error err => exact Or.inr (Or.inl ⟨URL, rfl⟩)
      | ok exec => exact Or.inr (Or.inr ⟨URL, exec, rfl⟩)

/-! ## Exec and ExecSync: claims -/

/-- C11, refuted as stated: `httpd/exec/token` is a relative URL, it has no scheme, yet
`Exec` makes the executor for it as it is and not for the base address followed by it. -/
theorem relative_url_with_http_prefix_kept :
    isRelativeURL "httpd/exec/token".toList = true ∧
    (Exec (sampleExecEnv none "httpd/exec/token".toList) sampleExecOptions).1[1]? =
      some (.newExecutor "POST".toList "httpd/exec/token".toList) ∧
    (Exec (sampleExecEnv none "httpd/exec/token".toList) sampleExecOptions).1[1]? ≠
      some (.newExecutor "POST".toList (kubeletURLPrefix ++ "httpd/exec/token".toList)) :=
  ⟨by decide, by decide, by decide⟩

/-- C11, amended: for the URL the runtime's `Exec` call returns, the address `Exec` goes on
with is the base address `http://127.0.0.1:10250` followed by the returned URL if the
returned URL does not begin with the four characters `http`, and the returned URL
unchanged if it begins with `http`, as every URL that begins with `http://` or `https://`
does.  If `url.Parse` rejects that address, `Exec` returns the parse error and has done
nothing but the RPC: it connects to nothing.  If `url.Parse` accepts it, `Exec` makes the
executor for the parsed address; when `NewExecutor` fails `Exec` returns that error and
opens no stream, and when it succeeds `Exec` opens the stream on that executor and returns
what `Stream` returns. -/
theorem Exec_target_url {U X : Type} (client : ExecEnv U X) (opts : execOptions)
    (r : ExecResponse)
    (hrpc : client.Exec ⟨opts.id, opts.cmd, opts.tty, opts.stdin⟩ = .ok r) :
    (HasPrefix r.Url "http".toList = false →
      (∀ err, client.urlParse ("http://127.0.0.1:10250".toList ++ r.Url) = .error err →
        Exec client opts =
          ([.execRPC ⟨opts.id, opts.cmd, opts.tty, opts.stdin⟩], some err)) ∧
      (∀ URL, client.urlParse ("http://127.0.0.1:10250".toList ++ r.Url) = .ok URL →
        (Exec client opts).1[1]? = some (.newExecutor "POST".toList URL) ∧
        (∀ err, client.NewExecutor "POST".toList URL = .error err →
          Exec client opts =
            ([.execRPC ⟨opts.id, opts.cmd, opts.tty, opts.stdin⟩,
              .newExecutor "POST".toList URL], some err)) ∧
        (∀ exec, client.NewExecutor "POST".toList URL = .ok exec →
          ∃ options, Exec client opts =
            ([.execRPC ⟨opts.id, opts.cmd, opts.tty, opts.stdin⟩,
              .newExecutor "POST".toList URL, .stream exec options],
             client.Stream exec options)))) ∧
    (HasPrefix r.Url "http".toList = true →
      (∀ err, client.urlParse r.Url = .error err →
        Exec client opts =
          ([.execRPC ⟨opts.id, opts.cmd, opts.tty, opts.stdin⟩], some err)) ∧
      (∀ URL, client.urlParse r.Url = .ok URL →
        (Exec client opts).1[1]? = some (.newExecutor "POST".toList URL) ∧
        (∀ err, client.NewExecutor "POST".toList URL = .error err →
          Exec client opts =
            ([.execRPC ⟨opts.id, opts.cmd, opts.tty, opts.stdin⟩,
              .newExecutor "POST".toList URL], some err)) ∧
        (∀ exec, client.NewExecutor "POST".toList URL = .ok exec →
          ∃ options, Exec client opts =
            ([.execRPC ⟨opts.id, opts.cmd, opts.tty, opts.stdin⟩,
              .newExecutor "POST".toList URL, .stream exec options],
             client.Stream exec options)))) ∧
    ((HasPrefix r.Url "http://".toList = true ∨ HasPrefix r.Url "https://".toList = true) →
      HasPrefix r.Url "http".toList = true) := by
  have key : ∀ (target : Str),
      (if !HasPrefix r.Url "http".toList then kubeletURLPrefix ++ r.Url else r.Url) = target →
      (∀ err, client.urlParse target = .error err →
        Exec client opts =
          ([.execRPC ⟨opts.id, opts.cmd, opts.tty, opts.stdin⟩], some err)) ∧
      (∀ URL, client.urlParse target = .ok URL →
        (Exec client opts).1[1]? = some (.newExecutor "POST".toList URL) ∧
        (∀ err, client.NewExecutor "POST".toList URL = .error err →
          Exec client opts =
            ([.execRPC ⟨opts.id, opts.cmd, opts.tty, opts.stdin⟩,
              .newExecutor "POST".toList URL], some err)) ∧
        (∀ exec, client.NewExecutor "POST".toList URL = .ok exec →
          ∃ options, Exec client opts =
            ([.execRPC ⟨opts.id, opts.cmd, opts.tty, opts.stdin⟩,
              .newExecutor "POST".toList URL, .stream exec options],
             client.Stream exec options))) := by
    intro target htarget
    constructor
    · intro err hparse
      rw [← htarget] at hparse
      unfold Exec
      simp only [hrpc, hparse]
    · intro URL hparse
      rw [← htarget] at hparse
      rw [Exec_after_parse client opts r URL hrpc hparse]
      cases hnew : client.NewExecutor "POST".toList URL with
      | error err =>
        refine ⟨rfl, ?_, ?_⟩
        · intro err' h
          cases h
          rfl
        · intro exec h
          cases h
      | ok exec =>
        refine ⟨rfl, ?_, ?_⟩
        · intro err h
          cases h
        · intro exec' h
          cases h
          exact ⟨⟨client.SupportedStreamingProtocols,
            if opts.stdin then some .stdin else none, some .stdout, some .stderr, opts.tty⟩,
            rfl⟩
  refine ⟨?_, ?_, ?_⟩
  · intro hpre
    apply key
    rw [hpre]
    rfl
  · intro hpre
    apply key
    rw [hpre]
    rfl
  · rintro (h | h)
    · exact hasPrefix_of_append r.Url "http".toList "://".toList h
    · exact hasPrefix_of_append r.Url "http".toList "s://".toList h

/-- The URL `/exec/token` is resolved against the base address. -/
theorem Exec_target_url_witness :
    (Exec (sampleExecEnv none "/exec/token".toList) sampleExecOptions).1[1]? =
      some (.newExecutor "POST".toList "http://127.0.0.1:10250/exec/token".toList) :=
  (((Exec_target_url (sampleExecEnv none "/exec/token".toList) sampleExecOptions
      ⟨"/exec/token".toList⟩ rfl).1 (by decide)).2
    "http://127.0.0.1:10250/exec/token".toList rfl).1

/-- C12: the first thing `Exec` does is send the `ExecRequest` with the container id, the
command vector, the tty flag and the stdin flag of the options.  Whenever it opens the
stream, the stream has the local standard input attached if and only if `opts.stdin`,
the local standard output and standard error attached, and terminal mode `opts.tty`; and
it does open the stream when the RPC, the parsing of the URL and the making of the
executor succeed. -/
theorem Exec_stream_options {U X : Type} (client : ExecEnv U X) (opts : execOptions) :
    (Exec client opts).1.head? = some (.execRPC ⟨opts.id, opts.cmd, opts.tty, opts.stdin⟩) ∧
    (∀ exec options, ExecEvent.stream exec options ∈ (Exec client opts).1 →
      (options.Stdin = some .stdin ↔ opts.stdin = true) ∧
      (options.Stdin = none ↔ opts.stdin = false) ∧
      options.Stdout = some .stdout ∧ options.Stderr = some .stderr ∧
      options.Tty = opts.tty) ∧
    (∀ r URL exec, client.Exec ⟨opts.id, opts.cmd, opts.tty, opts.stdin⟩ = .ok r →
      client.urlParse
        (if !HasPrefix r.Url "http".toList then kubeletURLPrefix ++ r.Url else r.Url) = .ok URL →
      client.NewExecutor "POST".toList URL = .ok exec →
      ∃ options, ExecEvent.stream exec options ∈ (Exec client opts).1) := by
  refine ⟨?_, ?_, ?_⟩
  · rcases Exec_events client opts with h | ⟨URL, h⟩ | ⟨URL, exec, h⟩ <;> rw [h] <;> rfl
  · intro exec options hmem
    rcases Exec_events client opts with h | ⟨URL, h⟩ | ⟨URL, exec', h⟩
    · rw [h] at hmem
      simp at hmem
    · rw [h] at hmem
      simp at hmem
    · rw [h] at hmem
      simp only [List.mem_cons, List.mem_singleton, List.not_mem_nil, or_false] at hmem
      rcases hmem with h1 | h1 | h1
      · cases h1
      · cases h1
      · cases h1
        cases opts.stdin <;> simp
  · intro r URL exec hrpc hparse hnew
    rw [Exec_after_parse client opts r URL hrpc hparse, hnew]
    exact ⟨⟨client.SupportedStreamingProtocols, if opts.stdin then some .stdin else none,
      some .stdout, some .stderr, opts.tty⟩, by simp⟩

/-- An interactive session: the stream gets standard input and terminal mode. -/
theorem Exec_stream_options_witness :
    ∃ options, ExecEvent.stream "http://127.0.0.1:10250/exec/token".toList options ∈
        (Exec (sampleExecEnv none "/exec/token".toList) sampleExecOptions).1 ∧
      options.Stdin = some .stdin ∧ options.Tty = true := by
  obtain ⟨_, hall, hex⟩ :=
    Exec_stream_options (sampleExecEnv none "/exec/token".toList) sampleExecOptions
  obtain ⟨options, hmem⟩ := hex ⟨"/exec/token".toList⟩
    "http://127.0.0.1:10250/exec/token".toList "http://127.0.0.1:10250/exec/token".toList
    rfl rfl rfl
  obtain ⟨hin, _, _, _, htty⟩ := hall _ options hmem
  exact ⟨options, hmem, hin.mpr rfl, htty⟩

/-- C13: if the `Exec` RPC returns an error, or the URL to connect to (the returned URL,
after the base address has been put in front where it applies) fails to parse, `Exec`
returns that very error, and the RPC is the only thing it has done: no executor is made,
`Stream` is not invoked, nothing is sent a second time. -/
theorem Exec_setup_failure {U X : Type} (client : ExecEnv U X) (opts : execOptions) :
    (∀ err, client.Exec ⟨opts.id, opts.cmd, opts.tty, opts.stdin⟩ = .error err →
      Exec client opts = ([.execRPC ⟨opts.id, opts.cmd, opts.tty, opts.stdin⟩], some err)) ∧
    (∀ r err, client.Exec ⟨opts.id, opts.cmd, opts.tty, opts.stdin⟩ = .ok r →
      client.urlParse
        (if !HasPrefix r.Url "http".toList then kubeletURLPrefix ++ r.Url else r.Url) =
          .error err →
      Exec client opts = ([.execRPC ⟨opts.id, opts.cmd, opts.tty, opts.stdin⟩], some err)) := by
  constructor
  · intro err hrpc
    unfold Exec
    simp only [hrpc]
  · intro r err hrpc hparse
    unfold Exec
    simp only [hrpc, hparse]

/-- A returned URL with an invalid escape: the parse error comes back, nothing is streamed. -/
theorem Exec_setup_failure_witness :
    Exec (sampleExecEnv none "/exec/%zz".toList) plainExecOptions =
      ([.execRPC ⟨"c1".toList, ["echo".toList, "hello".toList], false, false⟩],
        some "invalid URL escape") :=
  (Exec_setup_failure (sampleExecEnv none "/exec/%zz".toList) plainExecOptions).2
    ⟨"/exec/%zz".toList⟩ "invalid URL escape" rfl rfl

/-- C14: `ExecSync` sends the `ExecSync` RPC first, with the container id, the command
vector and the timeout of the options, and sends no second one; if the RPC returns an
error, `ExecSync` returns that error and has done nothing else: nothing is printed. -/
theorem ExecSync_single_rpc {U X : Type} (client : ExecEnv U X) (opts : execOptions) :
    (ExecSync client opts).1.head? =
      some (.execSyncRPC ⟨opts.id, opts.cmd, opts.timeout⟩) ∧
    (∀ request, ExecEvent.execSyncRPC request ∉ (ExecSync client opts).1.tail) ∧
    (∀ request, ExecEvent.execRPC request ∉ (ExecSync client opts).1) ∧
    (∀ err, client.ExecSync ⟨opts.id, opts.cmd, opts.timeout⟩ = .error err →
      ExecSync client opts = ([.execSyncRPC ⟨opts.id, opts.cmd, opts.timeout⟩], some err)) := by
  simp only [ExecSync]
  cases hrpc : client.ExecSync ⟨opts.id, opts.cmd, opts.timeout⟩ with
  | error err => simp
  | ok r =>
    by_cases hcode : r.ExitCode = 0
    · simp [hcode]
    · simp [hcode]

/-- A failing RPC: the error comes back and nothing is printed. -/
theorem ExecSync_single_rpc_witness :
    ExecSync (sampleExecEnv (some "deadline exceeded") []) plainExecOptions =
      ([.execSyncRPC ⟨"c1".toList, ["echo".toList, "hello".toList], 5⟩],
        some "deadline exceeded") :=
  (ExecSync_single_rpc (sampleExecEnv (some "deadline exceeded") []) plainExecOptions).2.2.2
    "deadline exceeded" rfl

/-! ## Test teardown and container lookup: claims -/

/-- C15: whatever the runtime answers, the teardown calls `StopPodSandbox(podID)` first and
`RemovePodSandbox(podID)` second; in particular the removal is attempted when the stop
returned an error. -/
theorem teardown_stop_then_remove (rc : SandboxService) (podID hostPath : Str) :
    afterEachContainer rc podID = [.stopPodSandbox podID, .removePodSandbox podID] ∧
    afterEachLog rc podID hostPath =
      [.stopPodSandbox podID, .removePodSandbox podID, .removeAll hostPath] ∧
    (∀ err, rc.StopPodSandbox podID = some err →
      TeardownCall.removePodSandbox podID ∈ afterEachContainer rc podID ∧
      TeardownCall.removePodSandbox podID ∈ afterEachLog rc podID hostPath) := by
  refine ⟨rfl, rfl, ?_⟩
  intro err _
  simp [afterEachContainer, afterEachLog]

/-- With a runtime whose stop always fails the removal is still attempted. -/
theorem teardown_stop_then_remove_witness :
    TeardownCall.removePodSandbox "pod".toList ∈
      afterEachContainer stuckSandboxService "pod".toList :=
  ((teardown_stop_then_remove stuckSandboxService "pod".toList []).2.2 "stop failed" rfl).1

/-- C18: `containerFound` returns true if and only if some container of the list has the
given id; on the empty list it returns false. -/
theorem containerFound_iff (containers : List Container) (containerID : Str) :
    (containerFound containers containerID = true ↔
      ∃ container ∈ containers, container.Id = containerID) ∧
    containerFound [] containerID = false := by
  refine ⟨?_, rfl⟩
  induction containers with
  | nil => simp [containerFound]
  | cons c rest ih =>
    unfold containerFound
    by_cases h : c.Id = containerID
    · simp [h]
    · simp [h, ih]

/-! ## Container creation: the caller's config -/

/-- C19: every `CreateContainer` request that `CreateContainer` sends to the runtime carries
the pod id, the container config and the pod config exactly as supplied, so its image
reference is the caller's, without a `:latest` added; the name with `:latest` goes to
`ImageStatus` and `PullImage` only.  That request is sent whenever the status check and
any pull succeed. -/
theorem CreateContainer_config_untouched (rc : RuntimeService) (ic : ImageManagerService)
    (config : ContainerConfig) (podID : Str) (podConfig : PodSandboxConfig) :
    (∀ p c pc, Call.createContainer p c pc ∈ (CreateContainer rc ic config podID podConfig).1 →
      p = podID ∧ c = config ∧ pc = podConfig ∧ c.Image = config.Image) ∧
    (∀ image, config.Image = some image →
      ((∃ img, ic.ImageStatus ⟨lookupName image.Image⟩ = .ok (some img)) ∨
       (ic.ImageStatus ⟨lookupName image.Image⟩ = .ok none ∧
         ∃ id, ic.PullImage ⟨lookupName image.Image⟩ = .ok id)) →
      (CreateContainer rc ic config podID podConfig).1.getLast? =
        some (.createContainer podID config podConfig)) := by
  constructor
  · intro p c pc hmem
    cases himg : config.Image with
    | none =>
      unfold CreateContainer at hmem
      rw [himg] at hmem
      simp at hmem
    | some image =>
      rw [CreateContainer_sent rc ic config podID podConfig image himg] at hmem
      have hall : p = podID ∧ c = config ∧ pc = podConfig := by
        cases hs : ic.ImageStatus ⟨lookupName image.Image⟩ with
        | error e =>
          rw [hs] at hmem
          simp at hmem
        | ok status =>
          cases status with
          | some img =>
            rw [hs] at hmem
            simpa using hmem
          | none =>
            rw [hs] at hmem
            cases hp : ic.PullImage ⟨lookupName image.Image⟩ with
            | error e =>
              rw [hp] at hmem
              simp at hmem
            | ok id =>
              rw [hp] at hmem
              simpa using hmem
      obtain ⟨h1, h2, h3⟩ := hall
      exact ⟨h1, h2, h3, by rw [h2, himg]⟩
  · intro image himg hok
    rw [CreateContainer_sent rc ic config podID podConfig image himg]
    rcases hok with ⟨img, hs⟩ | ⟨hs, id, hp⟩
    · rw [hs]
      rfl
    · rw [hs]
      simp only [hp]
      rfl

/-- For the reference `busybox` the runtime is asked to create a container from `busybox`,
while the image service was asked about `busybox:latest`. -/
theorem CreateContainer_config_untouched_witness :
    (CreateContainer sampleRuntimeService emptyImageService
        (configWithImage "busybox".toList) "pod".toList samplePodConfig).1.getLast? =
      some (.createContainer "pod".toList (configWithImage "busybox".toList) samplePodConfig) :=
  (CreateContainer_config_untouched sampleRuntimeService emptyImageService
      (configWithImage "busybox".toList) "pod".toList samplePodConfig).2
    ⟨"busybox".toList⟩ rfl (Or.inr ⟨rfl, "busybox:latest".toList, rfl⟩)

/-! ## Unique identifiers: one call -/

/-- The waiting loop ends: when the candidates at positions `p` to `p + k - 1` equal
`lastUUID` and the one at `p + k` does not, more than `k` tests of the loop condition
are enough, and the candidate at `p + k` is the one kept. -/
theorem waitLoop_finds (src : Nat → UUID) (lastUUID : UUID) :
    ∀ (k p fuel : Nat), (∀ i, p ≤ i → i < p + k → src i = lastUUID) →
      src (p + k) ≠ lastUUID → k < fuel →
      waitLoop src lastUUID fuel (p + 1) (src p) = some (src (p + k), p + k + 1)
  | 0, p, 0, _, _, hfuel => by omega
  | 0, p, fuel + 1, _, hne, _ => by
    unfold waitLoop
    have hfalse : uuidEqual lastUUID (src p) = false := by
      unfold uuidEqual
      apply beq_false_of_ne
      intro h
      exact hne h.symm
    rw [hfalse]
    rfl
  | k + 1, p, 0, _, _, hfuel => by omega
  | k + 1, p, fuel + 1, hbefore, hne, hfuel => by
    unfold waitLoop
    have htrue : uuidEqual lastUUID (src p) = true := by
      unfold uuidEqual
      rw [hbefore p (le_refl p) (by omega)]
      exact beq_self_eq_true _
    rw [if_pos htrue]
    have hrec := waitLoop_finds src lastUUID k (p + 1) fuel
      (fun i hi hlt => hbefore i (by omega) (by omega))
      (by rw [show p + 1 + k = p + (k + 1) by omega]; exact hne) (by omega)
    rw [hrec, show p + 1 + k = p + (k + 1) by omega]

/-! ## Unique identifiers: the contract of one call -/

/-- C17: a call of `NewUUID` that returns, from any state and with any candidate source,
has drawn candidates up to some position `q`: every candidate before `q` was equal to
`lastUUID` and was dropped, the candidate at `q` differs from `lastUUID`, the token is its
string form, and it is the new `lastUUID`.  The token differs from the token of the call
just before (the library hands out nil or 16-byte values).  On the first call, where
`lastUUID` is nil, the candidate returned is the first non-nil one; and if there is a
non-nil candidate the call does return it, given enough fuel. -/
theorem NewUUID_contract (src : Nat → UUID) :
    (∀ (fuel : Nat) (g g' : Generator) (token : Str),
      NewUUID src fuel g = some (token, g') →
      ∃ q, g.drawn ≤ q ∧
        (∀ i, g.drawn ≤ i → i < q → src i = g.lastUUID) ∧
        src q ≠ g.lastUUID ∧
        token = uuidString (src q) ∧ g'.lastUUID = src q ∧ g'.drawn = q + 1 ∧
        token = uuidString g'.lastUUID ∧
        ((∀ i, src i = [] ∨ (src i).length = 16) →
          ∀ (fuel0 : Nat) (g0 : Generator) (token0 : Str),
            NewUUID src fuel0 g0 = some (token0, g) → token ≠ token0) ∧
        (g.lastUUID = [] → src q ≠ [] ∧ ∀ i, g.drawn ≤ i → i < q → src i = [])) ∧
    (∀ (fuel q : Nat), src q ≠ [] → (∀ i, i < q → src i = []) → q < fuel →
      NewUUID src fuel Generator.initial = some (uuidString (src q), ⟨src q, q + 1⟩)) := by
  constructor
  · intro fuel g g' token hret
    obtain ⟨q, hq, htoken, hg', hne, hbefore⟩ := NewUUID_spec src fuel g g' token hret
    refine ⟨q, hq, hbefore, hne, htoken, by rw [hg'], by rw [hg'], by rw [hg', htoken], ?_, ?_⟩
    · intro hshape fuel0 g0 token0 hprev heq
      obtain ⟨q0, _, htoken0, hg, _, _⟩ := NewUUID_spec src fuel0 g0 g token0 hprev
      rw [htoken, htoken0] at heq
      have hsame := uuidString_injective _ _ (hshape q) (hshape q0) heq
      apply hne
      rw [hg]
      exact hsame
    · intro hnil
      refine ⟨by rw [← hnil]; exact hne, ?_⟩
      intro i hi hlt
      rw [hbefore i hi hlt, hnil]
  · intro fuel q hq hbefore hfuel
    unfold NewUUID
    have hfind := waitLoop_finds src [] q 0 fuel
      (fun i _ hlt => hbefore i (by omega)) (by rw [Nat.zero_add]; exact hq) hfuel
    simp only [Generator.initial, Nat.zero_add] at hfind ⊢
    rw [hfind]

/-- The first call on a source that starts with two nil values returns the third
candidate. -/
theorem NewUUID_contract_witness :
    NewUUID lateSource 5 Generator.initial =
      some ("02020202-0202-0202-0202-020202020202".toList, ⟨constUUID 2, 3⟩) :=
  (NewUUID_contract lateSource).2 5 2 (by decide)
    (by
      intro i hi
      have h : i < 2 := hi
      simp [lateSource, h])
    (by decide)

/-! ## Plaintext lines: tokens and white space -/

/-- Every field `strings.Fields` returns is non-empty and free of white space. -/
theorem fieldsFrom_tokens :
    ∀ (s cur : Str), (∀ c ∈ cur, isSpace c = false) →
      ∀ tok ∈ fieldsFrom s cur, tok ≠ [] ∧ ∀ c ∈ tok, isSpace c = false
  | [], cur, hcur, tok, htok => by
    unfold fieldsFrom at htok
    cases cur with
    | nil => simp at htok
    | cons d ds =>
      simp only [List.isEmpty_cons, Bool.false_eq_true, if_false, List.mem_singleton] at htok
      rw [htok]
      refine ⟨by simp, ?_⟩
      intro c hc
      exact hcur c (List.mem_reverse.mp hc)
  | x :: xs, cur, hcur, tok, htok => by
    unfold fieldsFrom at htok
    by_cases hx : isSpace x = true
    · rw [if_pos hx] at htok
      cases cur with
      | nil =>
        simp only [List.isEmpty_nil, if_true] at htok
        exact fieldsFrom_tokens xs [] (by simp) tok htok
      | cons d ds =>
        simp only [List.isEmpty_cons, Bool.false_eq_true, if_false, List.mem_cons] at htok
        rcases htok with h | h
        · rw [h]
          refine ⟨by simp, ?_⟩
          intro c hc
          exact hcur c (List.mem_reverse.mp hc)
        · exact fieldsFrom_tokens xs [] (by simp) tok h
    · rw [if_neg hx] at htok
      apply fieldsFrom_tokens xs (x :: cur) _ tok htok
      intro c hc
      rcases List.mem_cons.mp hc with h | h
      · rw [h]
        simpa using hx
      · exact hcur c h

theorem Fields_tokens (s : Str) :
    ∀ tok ∈ Fields s, tok ≠ [] ∧ ∀ c ∈ tok, isSpace c = false :=
  fieldsFrom_tokens s [] (by simp)

/-- A character of `Join toks " "` is a character of a token or the separating space. -/
theorem mem_Join : ∀ (toks : List Str) (c : Char), c ∈ Join toks [' '] →
    c = ' ' ∨ ∃ tok ∈ toks, c ∈ tok
  | [], c, h => by simp [Join] at h
  | [a], c, h => by
    simp only [Join] at h
    exact Or.inr ⟨a, by simp, h⟩
  | a :: b :: rest, c, h => by
    simp only [Join, List.append_assoc, List.mem_append, List.mem_singleton] at h
    rcases h with h | h | h
    · exact Or.inr ⟨a, by simp, h⟩
    · exact Or.inl h
    · rcases mem_Join (b :: rest) c h with h' | ⟨tok, htok, hc⟩
      · exact Or.inl h'
      · exact Or.inr ⟨tok, List.mem_cons_of_mem a htok, hc⟩

theorem hasDoubleSpace_of_no_space : ∀ (s : Str), ' ' ∉ s → hasDoubleSpace s = false
  | [], _ => rfl
  | c :: rest, h => by
    unfold hasDoubleSpace
    have hc : c ≠ ' ' := fun e => h (by rw [e]; exact List.mem_cons_self _ _)
    have hrest : ' ' ∉ rest := fun e => h (List.mem_cons_of_mem c e)
    simp [hc, hasDoubleSpace_of_no_space rest hrest]

theorem hasDoubleSpace_append_space : ∀ (a : Str) (d : Char) (t : Str), ' ' ∉ a → d ≠ ' ' →
    hasDoubleSpace (d :: t) = false → hasDoubleSpace (a ++ ' ' :: d :: t) = false
  | [], d, t, _, hd, ht => by
    rw [List.nil_append]
    unfold hasDoubleSpace
    simp only [List.head?_cons, Bool.or_eq_false_iff, Bool.and_eq_false_imp]
    refine ⟨?_, ht⟩
    intro _
    simpa using hd
  | x :: a, d, t, ha, hd, ht => by
    rw [List.cons_append]
    unfold hasDoubleSpace
    have hx : x ≠ ' ' := fun e => ha (by rw [e]; exact List.mem_cons_self _ _)
    have hrest : ' ' ∉ a := fun e => ha (List.mem_cons_of_mem x e)
    simp [hx, hasDoubleSpace_append_space a d t hrest hd ht]

theorem no_space_of_token (tok : Str) (h : ∀ c ∈ tok, isSpace c = false) : ' ' ∉ tok := by
  intro hmem
  have := h ' ' hmem
  revert this
  decide

/-- Joining tokens that are non-empty and free of white space never puts two spaces in a
row. -/
theorem hasDoubleSpace_Join : ∀ (toks : List Str),
    (∀ tok ∈ toks, tok ≠ [] ∧ ∀ c ∈ tok, isSpace c = false) →
    hasDoubleSpace (Join toks [' ']) = false
  | [], _ => rfl
  | [a], h => by
    simp only [Join]
    exact hasDoubleSpace_of_no_space a (no_space_of_token a (h a (by simp)).2)
  | a :: b :: rest, h => by
    have ha := h a (by simp)
    have hb := h b (by simp)
    have ih := hasDoubleSpace_Join (b :: rest)
      (fun tok htok => h tok (List.mem_cons_of_mem a htok))
    obtain ⟨d, t, hdt⟩ : ∃ d t, Join (b :: rest) [' '] = d :: t ∧ d ≠ ' ' := by
      cases hbb : b with
      | nil => exact absurd hbb hb.1
      | cons d t =>
        have hd : d ≠ ' ' := fun e =>
          no_space_of_token b hb.2 (by rw [hbb, e]; exact List.mem_cons_self _ _)
        cases rest with
        | nil => exact ⟨d, t, by simp [Join], hd⟩
        | cons r rest' => exact ⟨d, t ++ [' '] ++ Join (r :: rest') [' '], by simp [Join], hd⟩
    simp only [Join, List.append_assoc, List.singleton_append]
    rw [hdt.1] at ih ⊢
    exact hasDoubleSpace_append_space a d t (no_space_of_token a ha.2) hdt.2 ih

theorem hasDoubleSpace_append_newline : ∀ (body : Str), hasDoubleSpace body = false →
    hasDoubleSpace (body ++ ['\n']) = false
  | [], _ => by decide
  | c :: rest, h => by
    unfold hasDoubleSpace at h
    rw [List.cons_append]
    unfold hasDoubleSpace
    simp only [Bool.or_eq_false_iff] at h ⊢
    refine ⟨?_, hasDoubleSpace_append_newline rest h.2⟩
    cases rest with
    | nil => simp
    | cons d rest' => simpa using h.1

theorem parseCRILog_log {Time : Type} (lib : Lib Time) (line : Str)
    (msg r : logMessage Time) (h : parseCRILog lib line msg = .ok r) :
    r.log = Join ((Fields line).drop 2) [' '] ++ ['\n'] := by
  unfold parseCRILog at h
  cases h0 : (Fields line)[0]? with
  | none => simp [h0] at h
  | some first =>
    cases ht : lib.timeParse first with
    | none => simp [h0, ht] at h
    | some t =>
      cases h1 : (Fields line)[1]? with
      | none => simp [h0, ht, h1] at h
      | some stream =>
        simp only [h0, ht, h1] at h
        split at h
        · cases h
          rfl
        · cases h

/-! ## Plaintext lines: claims -/

/-- C20: `parseCRILog` is a function of the token sequence of the line: lines with the
same tokens give the same result, whatever white space stands between and around the
tokens.  The payload of a record is the message tokens, each non-empty and free of white
space, joined by one space, followed by one newline: it contains no other newline, no tab
and no two spaces in a row, so a message written with a tab or with two spaces in a row is
not reproduced byte for byte. -/
theorem parseCRILog_tokens_only {Time : Type} (lib : Lib Time) :
    (∀ (l1 l2 : Str) (m1 m2 : logMessage Time), Fields l1 = Fields l2 →
      parseCRILog lib l1 m1 = parseCRILog lib l2 m2) ∧
    (∀ (line : Str) (msg r : logMessage Time), parseCRILog lib line msg = .ok r →
      r.log = Join ((Fields line).drop 2) [' '] ++ ['\n'] ∧
      (∀ tok ∈ (Fields line).drop 2, tok ≠ [] ∧ ∀ c ∈ tok, isSpace c = false) ∧
      '\n' ∉ Join ((Fields line).drop 2) [' '] ∧
      '\t' ∉ r.log ∧ hasDoubleSpace r.log = false ∧
      ∀ message, (hasDoubleSpace message = true ∨ '\t' ∈ message) →
        r.log ≠ message ++ ['\n']) := by
  constructor
  · intro l1 l2 m1 m2 hf
    rw [parseCRILog_any_msg lib l1 m1 m2]
    unfold parseCRILog
    rw [hf]
  · intro line msg r h
    have hlog := parseCRILog_log lib line msg r h
    have htoks : ∀ tok ∈ (Fields line).drop 2, tok ≠ [] ∧ ∀ c ∈ tok, isSpace c = false :=
      fun tok htok => Fields_tokens line tok (List.mem_of_mem_drop htok)
    have hchar : ∀ c, c ∈ Join ((Fields line).drop 2) [' '] → isSpace c = true → c = ' ' := by
      intro c hc hsp
      rcases mem_Join _ c hc with h1 | ⟨tok, htok, hin⟩
      · exact h1
      · rw [(htoks tok htok).2 c hin] at hsp
        cases hsp
    have hnl : '\n' ∉ Join ((Fields line).drop 2) [' '] := by
      intro hc
      exact absurd (hchar '\n' hc (by decide)) (by decide)
    have htab : '\t' ∉ Join ((Fields line).drop 2) [' '] := by
      intro hc
      exact absurd (hchar '\t' hc (by decide)) (by decide)
    have hdouble := hasDoubleSpace_Join ((Fields line).drop 2) htoks
    refine ⟨hlog, htoks, hnl, ?_, ?_, ?_⟩
    · rw [hlog]
      intro hc
      rcases List.mem_append.mp hc with h1 | h1
      · exact htab h1
      · revert h1
        decide
    · rw [hlog]
      exact hasDoubleSpace_append_newline _ hdouble
    · intro message hmsg heq
      rw [hlog] at heq
      have hsame := List.append_cancel_right heq
      rw [← hsame] at hmsg
      rcases hmsg with h1 | h1
      · rw [hdouble] at h1
        cases h1
      · exact htab h1

/-- Two lines with the same tokens and different white space give the same record, whose
payload has the single space between the message tokens. -/
theorem parseCRILog_tokens_only_witness :
    parseCRILog refLib wideLine default = parseCRILog refLib tabbedLine default ∧
    parseCRILog refLib wideLine default =
      .ok ⟨⟨2016, 10, 6, 0, 17, 9, 669794202, 0⟩, "stdout".toList, "a b\n".toList⟩ :=
  ⟨(parseCRILog_tokens_only refLib).1 wideLine tabbedLine default default (by decide), rfl⟩

/-! ## Verification of log contents: lemmas -/

/-- The loop succeeds exactly when every record has the expected payload and stream. -/
theorem verifyLoop_ok_iff {Time : Type} (expected : logMessage Time) :
    ∀ (records : List (logMessage Time)),
      verifyLoop expected records = .ok () ↔
        ∀ r ∈ records, r.log = expected.log ∧ r.stream = expected.stream
  | [] => by simp [verifyLoop]
  | msg :: rest => by
    unfold verifyLoop
    by_cases hlog : msg.log = expected.log
    · by_cases hstream : msg.stream = expected.stream
      · rw [if_pos hlog, if_pos hstream, verifyLoop_ok_iff expected rest]
        simp [hlog, hstream]
      · rw [if_pos hlog, if_neg hstream]
        simp [hstream]
    · rw [if_neg hlog]
      simp [hlog]

/-- The loop does not look at timestamps, neither the expected one nor those of the
records. -/
theorem verifyLoop_ignores_time {Time : Type} (expected : logMessage Time) (t : Time)
    (stamp : logMessage Time → Time) :
    ∀ (records : List (logMessage Time)),
      verifyLoop ⟨t, expected.stream, expected.log⟩
          (records.map (fun r => ⟨stamp r, r.stream, r.log⟩)) =
        verifyLoop expected records
  | [] => rfl
  | msg :: rest => by
    simp only [List.map_cons, verifyLoop]
    rw [verifyLoop_ignores_time expected t stamp rest]

/-! ## Verification of log contents: claims -/

/-- C21: `verifyLogContents` succeeds if and only if `parseLogLine` returns the records of
the log file and every one of them has payload and stream equal to the payload and stream
of the expected message; when `parseLogLine` fails it fails with it.  Timestamps play no
part: the outcome is the same for any timestamp in the expected message, and the loop
gives the same verdict on records that differ in their timestamps only.  On a file with
zero lines (opened and scanned without error) it succeeds whatever the expected message
is. -/
theorem verifyLogContents_iff {Time : Type} [Inhabited Time] (lib : Lib Time) (f : LogFile)
    (expected : logMessage Time) :
    (verifyLogContents lib f expected = .ok () ↔
      ∃ records, parseLogLine lib f = .ok records ∧
        ∀ r ∈ records, r.log = expected.log ∧ r.stream = expected.stream) ∧
    (∀ records, parseLogLine lib f = .ok records →
      (verifyLogContents lib f expected = .ok () ↔
        ∀ r ∈ records, r.log = expected.log ∧ r.stream = expected.stream)) ∧
    (∀ e, parseLogLine lib f = .error e →
      verifyLogContents lib f expected = .error (.parse e)) ∧
    (∀ t, verifyLogContents lib f ⟨t, expected.stream, expected.log⟩ =
      verifyLogContents lib f expected) ∧
    (∀ (records : List (logMessage Time)) (stamp : logMessage Time → Time),
      verifyLoop expected (records.map (fun r => ⟨stamp r, r.stream, r.log⟩)) =
        verifyLoop expected records) ∧
    (f.openErr = false → f.lines = [] → f.scanErr = false →
      verifyLogContents lib f expected = .ok ()) := by
  have hok : ∀ records, parseLogLine lib f = .ok records →
      (verifyLogContents lib f expected = .ok () ↔
        ∀ r ∈ records, r.log = expected.log ∧ r.stream = expected.stream) := by
    intro records hparse
    unfold verifyLogContents
    rw [hparse]
    exact verifyLoop_ok_iff expected records
  have herr : ∀ e, parseLogLine lib f = .error e →
      verifyLogContents lib f expected = .error (.parse e) := by
    intro e hparse
    unfold verifyLogContents
    rw [hparse]
  have hloop : ∀ (t : Time) (records : List (logMessage Time)),
      verifyLoop ⟨t, expected.stream, expected.log⟩ records = verifyLoop expected records := by
    intro t records
    have h := verifyLoop_ignores_time expected t (fun r => r.timestamp) records
    simpa using h
  refine ⟨?_, hok, herr, ?_, ?_, ?_⟩
  · constructor
    · intro h
      cases hparse : parseLogLine lib f with
      | error e =>
        rw [herr e hparse] at h
        cases h
      | ok records => exact ⟨records, rfl, (hok records hparse).mp h⟩
    · rintro ⟨records, hparse, hall⟩
      exact (hok records hparse).mpr hall
  · intro t
    unfold verifyLogContents
    cases parseLogLine lib f with
    | error e => rfl
    | ok records => exact hloop t records
  · intro records stamp
    have h := verifyLoop_ignores_time expected expected.timestamp stamp records
    simpa using h
  · intro hopen hlines hscan
    apply (hok [] _).mpr
    · intro r hr
      cases hr
    · unfold parseLogLine
      rw [hopen, hlines, hscan]
      rfl

/-- The log of `echo "hello World"`, one line in each format: the check succeeds although
the expected message carries the zero timestamp. -/
theorem verifyLogContents_iff_witness :
    verifyLogContents refLib ⟨false, [helloLine, helloJSONLine], false⟩ helloExpected =
      .ok () :=
  (verifyLogContents_iff refLib ⟨false, [helloLine, helloJSONLine], false⟩ helloExpected).1.mpr
    ⟨[⟨⟨2017, 5, 4, 10, 11, 12, 13, 0⟩, "stdout".toList, "hello World\n".toList⟩,
      ⟨⟨2017, 5, 4, 10, 11, 12, 0, 0⟩, "stdout".toList, "hello World\n".toList⟩],
     rfl, by decide⟩

end CriTools
